import Mathlib

/-!
Verification of the Unipreply AI-assisted chat grounding pipeline.

This file gives a shallow embedding, over `List Char`, of the server chat
endpoint (entity extraction, record fetch, prompt composition, streaming,
error classification) and of the client response renderer (segmentation,
table parsing), and proves or refutes the frozen specification claims.

JavaScript strings are modelled as `List Char`; JavaScript regular
expressions are modelled with a small nondeterministic parser-combinator
layer whose alternative order mirrors the backtracking priority of the
JS regex engine (leftmost match, greedy/lazy quantifier order).
-/

namespace Unipreply

/-- JavaScript strings are modelled as lists of characters. -/
abbrev Str := List Char

/-- Lower-casing of a modelled string (`String.prototype.toLowerCase`,
ASCII range, which covers all inputs this code base handles). -/
def lowerStr (s : Str) : Str := s.map Char.toLower

/-- The whitespace class `\s` of JS regexes / `String.prototype.trim`
(ASCII members; the inputs handled here contain no exotic spaces). -/
def jsIsSpace (c : Char) : Bool :=
  c = ' ' || c = '\t' || c = '\n' || c = '\r' || c = '\x0b' || c = '\x0c'

/-- The word class `\w` of JS regexes: ASCII letters, digits, underscore. -/
def jsIsWord (c : Char) : Bool :=
  ('a' ≤ c && c ≤ 'z') || ('A' ≤ c && c ≤ 'Z') || ('0' ≤ c && c ≤ '9') || c = '_'

/-- The class `[\w\s]` used by the capture groups of the university patterns. -/
def jsIsWordOrSpace (c : Char) : Bool := jsIsWord c || jsIsSpace c

/-- `String.prototype.trim`: strip leading and trailing whitespace. -/
def jsTrim (s : Str) : Str :=
  ((s.dropWhile jsIsSpace).reverse.dropWhile jsIsSpace).reverse

/-- Boolean prefix test: `isPrefixB pat s` holds when `pat` begins `s`. -/
def isPrefixB : Str → Str → Bool
  | [], _ => true
  | _ :: _, [] => false
  | a :: as, b :: bs => a = b && isPrefixB as bs

/-- `String.prototype.includes`: `includesB s pat` is true when `pat`
occurs contiguously inside `s`. -/
def includesB (s pat : Str) : Bool :=
  if isPrefixB pat s then true
  else
    match s with
    | [] => false
    | _ :: t => includesB t pat

/-- Case-insensitive containment, the model of `/lit/i.test(s)` for a
literal pattern `lit`. -/
def includesCI (s pat : Str) : Bool := includesB (lowerStr s) (lowerStr pat)

/-- `String.prototype.split` with a single-character separator. -/
def jsSplitChar (sep : Char) : Str → List Str
  | [] => [[]]
  | c :: rest =>
    if c = sep then [] :: jsSplitChar sep rest
    else
      match jsSplitChar sep rest with
      | [] => [[c]]
      | piece :: pieces => (c :: piece) :: pieces

/-- `Array.prototype.join` with a single-character separator. -/
def joinChar (sep : Char) : List Str → Str
  | [] => []
  | [s] => s
  | s :: rest => s ++ sep :: joinChar sep rest

/-- `Array.prototype.join` with a string separator. -/
def joinStr (sep : Str) : List Str → Str
  | [] => []
  | [s] => s
  | s :: rest => s ++ sep ++ joinStr sep rest

/-- `name.split(' ')[0]` as used by the fetch matchers. -/
def firstWord (s : Str) : Str := s.takeWhile (· ≠ ' ')

/-- Insertion pass of a JavaScript `Set`: keep an element unless it was
already seen. -/
def jsSetDedupGo (seen : List Str) : List Str → List Str
  | [] => []
  | x :: xs =>
    if x ∈ seen then jsSetDedupGo seen xs
    else x :: jsSetDedupGo (seen ++ [x]) xs

/-- `[...new Set(xs)]`: JavaScript `Set` keeps insertion order and the
first occurrence of each element. -/
def jsSetDedup (l : List Str) : List Str := jsSetDedupGo [] l

/-!
Parser combinators modelling JS regex backtracking.  A parser returns the
list of all ways to match a prefix of the input, in the priority order in
which the JS engine's backtracking would try them; the engine's chosen
match is the head of that list.
-/

/-- A nondeterministic prefix matcher: all alternatives in priority order. -/
abbrev Pat (α : Type) := Str → List (α × Str)

/-- Sequencing: every alternative of the first part is continued with
every alternative of the second, preserving backtracking priority. -/
def pbind (p : Pat α) (f : α → Pat β) : Pat β :=
  fun s => (p s).flatMap (fun ar => f ar.1 ar.2)

/-- The empty pattern: succeeds consuming nothing. -/
def pret (a : α) : Pat α := fun s => [(a, s)]

/-- Ordered alternation `a|b`: all of `p`'s ways before all of `q`'s. -/
def palt (p q : Pat α) : Pat α := fun s => p s ++ q s

/-- A case-insensitive literal, as compiled from a regex literal under the
`i` flag; returns the consumed input text (original casing). -/
def plitCI (lit : Str) : Pat Str := fun s =>
  if lowerStr (s.take lit.length) = lowerStr lit then [(s.take lit.length, s.drop lit.length)]
  else []

/-- Greedy `C+` over a character class `p`: candidate matches are the
maximal run first, then ever shorter nonempty prefixes of it. -/
def pplusG (p : Char → Bool) : Pat Str := fun s =>
  let run := s.takeWhile p
  let rest := s.dropWhile p
  (List.range run.length).map (fun k =>
    (run.take (run.length - k), run.drop (run.length - k) ++ rest))

/-- Lazy `C+?` over a character class `p`: shortest nonempty prefix first. -/
def pplusL (p : Char → Bool) : Pat Str := fun s =>
  let run := s.takeWhile p
  let rest := s.dropWhile p
  (List.range run.length).map (fun k =>
    (run.take (k + 1), run.drop (k + 1) ++ rest))

/-- Greedy `C*` over a character class `p`: maximal run first, down to
the empty match. -/
def pstarG (p : Char → Bool) : Pat Str := fun s =>
  let run := s.takeWhile p
  let rest := s.dropWhile p
  (List.range (run.length + 1)).map (fun k =>
    (run.take (run.length - k), run.drop (run.length - k) ++ rest))

/-- Greedy `r?`: the present alternative first, then the absent one. -/
def poptG (q : Pat α) : Pat (Option α) := fun s =>
  (q s).map (fun ar => (some ar.1, ar.2)) ++ [(none, s)]

/-- The `$` anchor (no `m` flag): matches only at the end of input. -/
def pend : Pat Unit := fun s => if s.isEmpty then [((), s)] else []

/-- Positive lookahead `(?=r)`: consumes nothing. -/
def plook (q : Pat α) : Pat Unit := fun s =>
  if (q s).isEmpty then [] else [((), s)]

/-- Negative lookahead `(?!r)`: consumes nothing. -/
def pnlook (q : Pat α) : Pat Unit := fun s =>
  if (q s).isEmpty then [((), s)] else []

/-- Lazy `r*?` with an explicit iteration bound (every use in this file
has a body that consumes at least one character, so a bound of the input
length is exact): fewest iterations first, returning the consumed text. -/
def pstarLazy (q : Pat Str) : Nat → Pat Str
  | 0 => pret []
  | n + 1 =>
    palt (pret [])
      (pbind q (fun a => pbind (pstarLazy q n) (fun b => pret (a ++ b))))

/-- One step of `RegExp.prototype.exec` under the `g` flag: try the
pattern at every position from left to right; on success return the
skipped text before the match, the match's capture, and the rest of the
input after the match. -/
def firstMatch (p : Pat α) : Str → Option (Str × α × Str)
  | [] => (p []).head?.map (fun ar => ([], ar.1, ar.2))
  | c :: rest =>
    match (p (c :: rest)).head? with
    | some ar => some ([], ar.1, ar.2)
    | none => (firstMatch p rest).map (fun x => (c :: x.1, x.2.1, x.2.2))

/-- All matches of `String.prototype.matchAll`, with the JS rule that a
zero-width match advances `lastIndex` by one. -/
def matchAllAux (p : Pat α) : Str → Nat → List α
  | _, 0 => []
  | s, fuel + 1 =>
    match firstMatch p s with
    | none => []
    | some (_, a, rest) =>
      if rest.length < s.length then a :: matchAllAux p rest fuel
      else
        match s with
        | [] => [a]
        | _ :: t => a :: matchAllAux p t fuel

/-- `[...message.matchAll(pattern)]`, captures in match order. -/
def matchAll (p : Pat α) (s : Str) : List α := matchAllAux p s (s.length + 1)

/-!
The concrete regexes of `extractSchoolNames` (chat endpoint).
-/

/-- `\s+`. -/
def wsPlus : Pat Str := pplusG jsIsSpace

/-- `\w+`. -/
def wordPlus : Pat Str := pplusG jsIsWord

/-- A capture group `(\w+(?:\s+\w+)?)` of the comparison pattern: one
word optionally followed by a second. -/
def namePat : Pat Str :=
  pbind wordPlus fun w1 =>
  pbind (poptG (pbind wsPlus fun sp => pbind wordPlus fun w2 => pret (sp ++ w2))) fun o =>
  pret (w1 ++ o.getD [])

/-- `(?:vs\.?|versus|compared to|or)` under the `i` flag. -/
def vsConnector : Pat Unit :=
  palt (pbind (plitCI "vs".toList) fun _ => pbind (poptG (plitCI ".".toList)) fun _ => pret ())
    (palt (pbind (plitCI "versus".toList) fun _ => pret ())
      (palt (pbind (plitCI "compared to".toList) fun _ => pret ())
        (pbind (plitCI "or".toList) fun _ => pret ())))

/-- `/(\w+(?:\s+\w+)?)\s+(?:vs\.?|versus|compared to|or)\s+(\w+(?:\s+\w+)?)/gi`,
returning the two captures. -/
def vsPat : Pat (Str × Str) :=
  pbind namePat fun a => pbind wsPlus fun _ => pbind vsConnector fun _ =>
  pbind wsPlus fun _ => pbind namePat fun b => pret (a, b)

/-- `(?:\s+have|\s+offer|\?|,|\.|\s+scholarship|\s+and|$)`, the terminator
group shared by the two university patterns. -/
def uniTerminator : Pat Unit :=
  palt (pbind wsPlus fun _ => pbind (plitCI "have".toList) fun _ => pret ())
    (palt (pbind wsPlus fun _ => pbind (plitCI "offer".toList) fun _ => pret ())
      (palt (pbind (plitCI "?".toList) fun _ => pret ())
        (palt (pbind (plitCI ",".toList) fun _ => pret ())
          (palt (pbind (plitCI ".".toList) fun _ => pret ())
            (palt (pbind wsPlus fun _ => pbind (plitCI "scholarship".toList) fun _ => pret ())
              (palt (pbind wsPlus fun _ => pbind (plitCI "and".toList) fun _ => pret ())
                pend))))))

/-- `/university\s+of\s+([\w\s]+?)(?:\s+have|\s+offer|\?|,|\.|\s+scholarship|\s+and|$)/gi`,
returning the capture. -/
def uniOfPat : Pat Str :=
  pbind (plitCI "university".toList) fun _ => pbind wsPlus fun _ =>
  pbind (plitCI "of".toList) fun _ => pbind wsPlus fun _ =>
  pbind (pplusL jsIsWordOrSpace) fun cap => pbind uniTerminator fun _ => pret cap

/-- `/([\w\s]+?)\s+university(?:\s+have|\s+offer|\?|,|\.|\s+scholarship|\s+and|$)/gi`,
returning the capture. -/
def uniPat : Pat Str :=
  pbind (pplusL jsIsWordOrSpace) fun cap => pbind wsPlus fun _ =>
  pbind (plitCI "university".toList) fun _ => pbind uniTerminator fun _ => pret cap

/-- The curated list of well-known institution short names scanned by
`extractSchoolNames`. -/
def knownSchools : List Str :=
  ["yale", "brown", "harvard", "princeton", "columbia", "cornell", "dartmouth", "penn",
   "stanford", "mit", "duke", "northwestern", "berkeley", "ucla", "usc", "nyu",
   "washington", "michigan", "texas", "florida", "ohio state", "georgia", "virginia",
   "notre dame", "vanderbilt", "rice", "emory", "georgetown", "carnegie mellon",
   "johns hopkins", "uw", "cal", "purdue", "illinois", "wisconsin", "maryland",
   "rutgers", "arizona"].map String.toList

/-- The known-school scanning loop: a name found in the message is
appended unless some already-collected candidate contains it. -/
def pushKnownSchools (lowerMessage : Str) (schools : List Str) : List Str → List Str
  | [] => schools
  | k :: ks =>
    if includesB lowerMessage k && !(schools.any (fun s => includesB (lowerStr s) k)) then
      pushKnownSchools lowerMessage (schools ++ [k]) ks
    else pushKnownSchools lowerMessage schools ks

/-- `extractSchoolNames` (chat endpoint): pattern matchers in source
order, then the known-school scan, then `[...new Set(schools)]`. -/
def extractSchoolNames (message : Str) : List Str :=
  let lowerMessage := lowerStr message
  let uniOfNames := (matchAll uniOfPat message).map jsTrim
  let uniNames := (matchAll uniPat message).filterMap
    (fun c => if c.length < 30 then some (jsTrim c) else none)
  let vsNames := (matchAll vsPat message).flatMap (fun ab => [jsTrim ab.1, jsTrim ab.2])
  jsSetDedup (pushKnownSchools lowerMessage (uniOfNames ++ uniNames ++ vsNames) knownSchools)

/-!
The streamed-fragment formatting stripper and the event-stream writes of
the chat endpoint handler.
-/

/-- The length of `dropWhile` is bounded by the input's length. -/
theorem dropWhile_length_le (p : Char → Bool) (l : List Char) :
    (l.dropWhile p).length ≤ l.length := by
  induction l with
  | nil => simp
  | cons c t ih =>
    by_cases h : p c
    · simp [List.dropWhile, h]; omega
    · simp [List.dropWhile, h]

/-- One global-replace pass of `text.replace(/dd([^d]+)dd/g, @$1@)` for a
doubled delimiter `d` (the `**bold**` and `__bold__` passes): at each
position, a match needs `d d`, a nonempty run without `d`, then `d d`;
on failure the scan advances one character. -/
def stripPairedDoubleGo (d : Char) : Nat → Str → Str
  | 0, l => l
  | _ + 1, [] => []
  | _ + 1, [c] => [c]
  | fuel + 1, c1 :: c2 :: rest =>
    let content := rest.takeWhile (· ≠ d)
    let after := rest.dropWhile (· ≠ d)
    if c1 = d ∧ c2 = d ∧ content ≠ [] ∧ after.take 2 = [d, d] then
      content ++ stripPairedDoubleGo d fuel (after.drop 2)
    else c1 :: stripPairedDoubleGo d fuel (c2 :: rest)

/-- The fuel argument is an upper bound on scan steps; every step
consumes at least one character, so the input length is enough. -/
def stripPairedDouble (d : Char) (l : Str) : Str := stripPairedDoubleGo d l.length l

/-- One global-replace pass of `text.replace(/d([^d]+)d/g, @$1@)` for a
single delimiter `d` (the `*italic*` and `_italic_` passes). -/
def stripPairedSingleGo (d : Char) : Nat → Str → Str
  | 0, l => l
  | _ + 1, [] => []
  | fuel + 1, c :: rest =>
    let content := rest.takeWhile (· ≠ d)
    let after := rest.dropWhile (· ≠ d)
    if c = d ∧ content ≠ [] ∧ after ≠ [] then
      content ++ stripPairedSingleGo d fuel (after.drop 1)
    else c :: stripPairedSingleGo d fuel rest

/-- Fuel bound as above: the input length bounds the scan steps. -/
def stripPairedSingle (d : Char) (l : Str) : Str := stripPairedSingleGo d l.length l

/-- The four sequential replace passes applied to each streamed fragment:
`**…**`, then `*…*`, then `__…__`, then `_…_`. -/
def stripFormatting (s : Str) : Str :=
  stripPairedSingle '_' (stripPairedDouble '_'
    (stripPairedSingle '*' (stripPairedDouble '*' s)))

/-- JSON string escaping as performed by `JSON.stringify`. -/
def jsonEscapeChar (c : Char) : Str :=
  if c = '"' then ['\\', '"']
  else if c = '\\' then ['\\', '\\']
  else if c = '\n' then ['\\', 'n']
  else if c = '\r' then ['\\', 'r']
  else if c = '\t' then ['\\', 't']
  else if c = '\x08' then ['\\', 'b']
  else if c = '\x0c' then ['\\', 'f']
  else if c.toNat < 32 then
    ['\\', 'u', '0', '0',
      (Nat.digitChar (c.toNat / 16)), (Nat.digitChar (c.toNat % 16))]
  else [c]

/-- `JSON.stringify` on a string value. -/
def jsonStringify (s : Str) : Str := '"' :: (s.flatMap jsonEscapeChar ++ ['"'])

/-- The event written for one forwarded fragment:
`res.write("data: " + JSON.stringify(. content: text .) + "\n\n")`. -/
def sseContentWrite (text : Str) : Str :=
  "data: \x7b\"content\":".toList ++ jsonStringify text ++ "\x7d\n\n".toList

/-- The terminal event `data: ..done..true..` written after the fragment
sequence ends. -/
def sseDoneWrite : Str := "data: \x7b\"done\":true\x7d\n\n".toList

/-- The in-band error event `data: ..error..` of the catch handler. -/
def sseErrorWrite (m : Str) : Str :=
  "data: \x7b\"error\":".toList ++ jsonStringify m ++ "\x7d\n\n".toList

/-- The streaming loop of the handler: each chunk with nonempty text is
stripped and written as one content event; after the loop the done event
is written (and then the response is ended). -/
def streamWrites : List Str → List Str
  | [] => [sseDoneWrite]
  | f :: rest =>
    if f ≠ [] then sseContentWrite (stripFormatting f) :: streamWrites rest
    else streamWrites rest

/-- What the handler's catch block produces: either a standard HTTP error
response (headers not yet sent) or a best-effort in-band event followed
by closing the stream. -/
inductive ErrorReport where
  | httpJson (status : Nat) (message : Str)
  | streamEvent (write : Str) (closed : Bool)
deriving DecidableEq

/-- The cooldown message of the rate-limit branch. -/
def rateLimitMessage : Str :=
  "Rate limit exceeded. Please wait a minute and try again.".toList

/-- The catch block of the chat handler: classify by substring, choose a
user-facing message, then report by HTTP status or in-band. -/
def handleChatError (headersSent : Bool) (errorMessage : Str) : ErrorReport :=
  let isRateLimit :=
    includesB errorMessage "429".toList || includesB errorMessage "quota".toList
  let userMessage := if isRateLimit then rateLimitMessage else errorMessage
  if !headersSent then
    ErrorReport.httpJson (if isRateLimit then 429 else 500) userMessage
  else ErrorReport.streamEvent (sseErrorWrite userMessage) true

/-!
The institution record tree (typed optional-field shape of the stored
Common Data Set documents) and the prompt composer of the chat endpoint.
-/

/-- `A_General_Information.A1_Address_Information`. -/
structure AddressInfo where
  city_state_zip_country : Option Str
  www_home_page_address : Option Str
  name_of_college_university : Option Str
deriving DecidableEq

/-- `B_Enrollment_and_Persistence.B1_Institutional_Enrollment_By_Gender`. -/
structure EnrollmentByGender where
  total_all_undergraduate : Option Nat
  total_all_graduate_and_professional : Option Nat
deriving DecidableEq

/-- `C_First_Time_First_Year_Admission.C1_Applications`. -/
structure ApplicationsC1 where
  total_applied : Option Nat
  total_admitted : Option Nat
  total_enrolled : Option Nat
deriving DecidableEq

/-- `C_First_Time_First_Year_Admission.C9_First_Time_First_Year_Profile`. -/
structure TestProfileC9 where
  sat_composite : Option (List Nat)
  act_composite : Option (List Nat)
  percent_submitting_sat : Option Nat
  percent_submitting_act : Option Nat
deriving DecidableEq

/-- `G1_Undergraduate_Full_Time_Costs_2025_2026.Tuition`. -/
structure TuitionG1 where
  private_institutions : Option Nat
  in_state : Option Nat
deriving DecidableEq

/-- `G_Annual_Expenses.G1_Undergraduate_Full_Time_Costs_2025_2026`. -/
structure CostsG1 where
  tuition : Option TuitionG1
  food_and_housing_on_campus : Option Nat
deriving DecidableEq

/-- `H2_Enrolled_Students_Awarded_Aid.First_Time_Full_Time_Freshmen`. -/
structure FreshmenAidH2 where
  average_financial_aid_package : Option Nat
  average_need_based_scholarship_grant : Option Nat
deriving DecidableEq

/-- One stored institution document, with every section the prompt
composer reads; absent JSON paths are `none`. -/
structure CDSRecord where
  institution : Option Str
  common_data_set : Option Str
  a1_address : Option AddressInfo
  b1_enrollment : Option EnrollmentByGender
  b22_retention_rate : Option Str
  c1_applications : Option ApplicationsC1
  c9_profile : Option TestProfileC9
  g1_costs : Option CostsG1
  h2_freshmen_aid : Option FreshmenAidH2
  i2_student_faculty_ratio : Option Str
deriving DecidableEq

/-- JS `x || dflt` for an optional string (absent and empty are falsy). -/
def jsOrStr (o : Option Str) (dflt : Str) : Str :=
  match o with
  | some s => if s ≠ [] then s else dflt
  | none => dflt

/-- Template rendering `${x || @N/A@}` for an optional number (absent and
zero are falsy). -/
def renderNatOpt : Option Nat → Str
  | some n => if n ≠ 0 then (toString n).toList else "N/A".toList
  | none => "N/A".toList

/-- Template rendering `${x || @N/A@}` for an optional string. -/
def renderStrOpt (o : Option Str) : Str := jsOrStr o "N/A".toList

/-- `(admitted / applied * 100).toFixed(1)`: the quotient is modelled on
exact rationals and rounded to the nearest tenth, half up; every value
the claims exercise is far from a floating-point tie. -/
def toFixedOne (admitted applied : Nat) : Str :=
  let t := (admitted * 2000 + applied) / (2 * applied)
  (toString (t / 10)).toList ++ '.' :: (toString (t % 10)).toList

/-- `c.Tuition?.Private_Institutions || c.Tuition?.In_State || @N/A@`. -/
def renderTuition : Option TuitionG1 → Str
  | some t =>
    match t.private_institutions with
    | some n =>
      if n ≠ 0 then (toString n).toList else renderNatOpt t.in_state
    | none => renderNatOpt t.in_state
  | none => "N/A".toList

/-- The `sections` array built by `formatCDSForPrompt`, in push order. -/
def formatCDSSections (data : CDSRecord) : List Str :=
  (match data.a1_address with
   | some addr =>
     ["Location: ".toList ++ renderStrOpt addr.city_state_zip_country,
      "Website: ".toList ++ renderStrOpt addr.www_home_page_address]
   | none => [])
  ++ (match data.b1_enrollment with
   | some e =>
     ["Total Undergraduates: ".toList ++ renderNatOpt e.total_all_undergraduate,
      "Total Graduate: ".toList ++ renderNatOpt e.total_all_graduate_and_professional]
   | none => [])
  ++ (match data.b22_retention_rate with
   | some r => if r ≠ [] then ["Retention Rate: ".toList ++ r] else []
   | none => [])
  ++ (match data.c1_applications with
   | some apps =>
     ["Applications: ".toList ++ renderNatOpt apps.total_applied,
      "Admitted: ".toList ++ renderNatOpt apps.total_admitted]
     ++ (match apps.total_applied, apps.total_admitted with
         | some ap, some ad =>
           if ap ≠ 0 ∧ ad ≠ 0 then
             ["Acceptance Rate: ".toList ++ toFixedOne ad ap ++ "%".toList]
           else []
         | _, _ => [])
     ++ ["Enrolled: ".toList ++ renderNatOpt apps.total_enrolled]
   | none => [])
  ++ (match data.c9_profile with
   | some sc =>
     (match sc.sat_composite with
      | some l =>
        ["SAT Composite (25th/50th/75th): ".toList
          ++ joinStr "/".toList (l.map (fun n => (toString n).toList))]
      | none => [])
     ++ (match sc.act_composite with
      | some l =>
        ["ACT Composite (25th/50th/75th): ".toList
          ++ joinStr "/".toList (l.map (fun n => (toString n).toList))]
      | none => [])
     ++ ["% Submitting SAT: ".toList ++ renderNatOpt sc.percent_submitting_sat,
         "% Submitting ACT: ".toList ++ renderNatOpt sc.percent_submitting_act]
   | none => [])
  ++ (match data.g1_costs with
   | some c =>
     ["Tuition: ".toList ++ renderTuition c.tuition,
      "Room & Board: ".toList ++ renderNatOpt c.food_and_housing_on_campus]
   | none => [])
  ++ (match data.h2_freshmen_aid with
   | some f =>
     ["Avg Financial Aid Package: ".toList ++ renderNatOpt f.average_financial_aid_package,
      "Avg Need-Based Grant: ".toList ++ renderNatOpt f.average_need_based_scholarship_grant]
   | none => [])
  ++ (match data.i2_student_faculty_ratio with
   | some r => if r ≠ [] then ["Student-Faculty Ratio: ".toList ++ r] else []
   | none => [])

/-- `formatCDSForPrompt`: the sections joined with newlines. -/
def formatCDSForPrompt (data : CDSRecord) : Str :=
  joinChar '\n' (formatCDSSections data)

/-- The institution name a stored document is matched by:
`(data.Institution || data...Name_of_College_University || @@).toLowerCase()`. -/
def cdsInstName (data : CDSRecord) : Str :=
  lowerStr (jsOrStr data.institution
    (jsOrStr (data.a1_address.bind (·.name_of_college_university)) []))

/-- The match predicate of `fetchCollegeCDS`: the stored name contains
the normalized query, or the query contains the first word of the
stored name. -/
def cdsMatches (data : CDSRecord) (normalizedName : Str) : Bool :=
  let institution := cdsInstName data
  includesB institution normalizedName || includesB normalizedName (firstWord institution)

/-- `fetchCollegeCDS` over a modelled document store (the Firestore
snapshot in document order): first matching document, else `null`. -/
def fetchCollegeCDS (store : List CDSRecord) (collegeName : Str) : Option CDSRecord :=
  let normalizedName := jsTrim (lowerStr collegeName)
  store.find? (fun data => cdsMatches data normalizedName)

/-!
Scholarship records and their prompt block, the scholarship-intent
keyword test, the static catalog resolution, and the system-prompt
composition of the chat handler.
-/

/-- A scholarship eligibility value: the stored field may be one string
or an array of strings (`Array.isArray` dispatch in the composer). -/
inductive EligVal where
  | strVal (s : Str)
  | listVal (l : List Str)
deriving DecidableEq

/-- JS truthiness for an eligibility value: an empty string is falsy, an
array is always truthy. -/
def EligVal.truthy : EligVal → Bool
  | .strVal s => s ≠ []
  | .listVal _ => true

/-- Rendering of an eligibility value: arrays joined with a comma. -/
def EligVal.render : EligVal → Str
  | .strVal s => s
  | .listVal l => joinStr ", ".toList l

/-- The `metadata` subdocument of a stored scholarship. -/
structure ScholarshipMeta where
  name : Option Str
  scholarshipName : Option Str
  amount : Option Str
  deadline : Option Str
  eligibility : Option EligVal
deriving DecidableEq

/-- One stored scholarship document, with every field the composer reads. -/
structure Scholarship where
  metadata : Option ScholarshipMeta
  name : Option Str
  amount : Option Str
  deadline : Option Str
  eligibility : Option EligVal
  scholarshipType : Option Str
  studentType : Option Str
  sourceUrl : Option Str
  rawText : Option Str
deriving DecidableEq

/-- JS `a || b` for two optional strings, keeping absence. -/
def jsOrOptStr (a b : Option Str) : Option Str :=
  match a with
  | some s => if s ≠ [] then some s else b
  | none => b

/-- JS `a || b` for two optional eligibility values. -/
def jsOrOptElig (a b : Option EligVal) : Option EligVal :=
  match a with
  | some v => if v.truthy then some v else b
  | none => b

/-- Truthiness guard for an optional string field. -/
def optStrTruthy : Option Str → Bool
  | some s => s ≠ []
  | none => false

/-- The pushes for one scholarship inside `formatScholarshipsForPrompt`. -/
def scholarshipLines (s : Scholarship) : List Str :=
  let nm := jsOrStr (jsOrOptStr (s.metadata.bind (·.name))
    (jsOrOptStr (s.metadata.bind (·.scholarshipName)) s.name)) "Unnamed Scholarship".toList
  let amount := jsOrOptStr (s.metadata.bind (·.amount)) s.amount
  let deadline := jsOrOptStr (s.metadata.bind (·.deadline)) s.deadline
  let eligibility := jsOrOptElig (s.metadata.bind (·.eligibility)) s.eligibility
  ["- Name: ".toList ++ nm]
  ++ (match amount with
      | some a => if a ≠ [] then ["  Amount: ".toList ++ a] else []
      | none => [])
  ++ (match deadline with
      | some dl => if dl ≠ [] then ["  Deadline: ".toList ++ dl] else []
      | none => [])
  ++ (match eligibility with
      | some e => if e.truthy then ["  Eligibility: ".toList ++ e.render] else []
      | none => [])
  ++ (if optStrTruthy s.scholarshipType then
        ["  Type: ".toList ++ s.scholarshipType.getD []] else [])
  ++ (match s.studentType with
      | some st =>
        if st ≠ [] ∧ st ≠ "both".toList then
          ["  For: ".toList ++
            (if st = "first-year".toList then "First-year students".toList
             else "Transfer students".toList)]
        else []
      | none => [])
  ++ (if optStrTruthy s.sourceUrl then
        ["  More info: ".toList ++ s.sourceUrl.getD []] else [])
  ++ (match s.rawText with
      | some raw =>
        if raw ≠ [] then
          ["  Details: ".toList
            ++ ((raw.take 300).map (fun c => if c = '\n' then ' ' else c))
            ++ "...".toList]
        else []
      | none => [])
  ++ [[]]

/-- `formatScholarshipsForPrompt`: fallback sentence when no records were
found, else a counted header followed by the per-scholarship blocks. -/
def formatScholarshipsForPrompt (scholarships : List Scholarship) (collegeName : Str) : Str :=
  if scholarships.length = 0 then
    "No scholarships found in our database for ".toList ++ collegeName
      ++ ". The school may offer scholarships not yet added to our system.".toList
  else
    joinChar '\n'
      (("Found ".toList ++ (toString scholarships.length).toList
          ++ " scholarship(s) for ".toList ++ collegeName ++ ":\n".toList)
        :: scholarships.flatMap scholarshipLines)

/-- The fixed financial-aid keyword list of `isAskingAboutScholarships`. -/
def scholarshipKeywords : List Str :=
  ["scholarship", "scholarships", "financial aid", "merit aid", "grant", "grants",
   "funding", "tuition assistance"].map String.toList

/-- `isAskingAboutScholarships`: keyword containment on the lower-cased
message. -/
def isAskingAboutScholarships (message : Str) : Bool :=
  scholarshipKeywords.any (fun k => includesB (lowerStr message) k)

/-- One entry of the static college catalog: a canonical key (`value`)
and a display label. -/
structure CatalogEntry where
  value : Str
  label : Str
deriving DecidableEq

/-- Modelled from the spec: the static in-memory college catalog
(`colleges` from the data source module, which is not part of the
provided sources) — a fixed list of key/label pairs for every
institution the system knows, loaded once and never mutated; populated
here with the institutions the specification names. -/
def collegesCatalog : List CatalogEntry :=
  [⟨"yale".toList, "Yale University".toList⟩,
   ⟨"brown".toList, "Brown University".toList⟩,
   ⟨"harvard".toList, "Harvard University".toList⟩,
   ⟨"princeton".toList, "Princeton University".toList⟩,
   ⟨"columbia".toList, "Columbia University".toList⟩,
   ⟨"cornell".toList, "Cornell University".toList⟩,
   ⟨"dartmouth".toList, "Dartmouth College".toList⟩,
   ⟨"stanford".toList, "Stanford University".toList⟩,
   ⟨"duke".toList, "Duke University".toList⟩,
   ⟨"vanderbilt".toList, "Vanderbilt University".toList⟩]

/-- Strip a leading affix if present (`replace(/^pre/i, @@)` on an
already lower-cased subject). -/
def stripPrefixIf (s pre : Str) : Str :=
  if isPrefixB pre s then s.drop pre.length else s

/-- Strip a trailing affix if present (`replace(/suf$/i, @@)` on an
already lower-cased subject). -/
def stripSuffixIf (s suf : Str) : Str :=
  if isPrefixB suf.reverse s.reverse then s.take (s.length - suf.length) else s

/-- The normalization of `findCollegeId`: lower-case, trim, strip
`university of `, `uc `, ` university`, ` college`, trim. -/
def normalizeCollegeName (collegeName : Str) : Str :=
  let n := jsTrim (lowerStr collegeName)
  let n := stripPrefixIf n "university of ".toList
  let n := stripPrefixIf n "uc ".toList
  let n := stripSuffixIf n " university".toList
  let n := stripSuffixIf n " college".toList
  jsTrim n

/-- `findCollegeId`: first catalog entry matching exactly or by
substring containment in either direction, in catalog order. -/
def findCollegeId (collegeName : Str) : Option Str :=
  let normalizedName := normalizeCollegeName collegeName
  (collegesCatalog.find? (fun college =>
    let label := lowerStr college.label
    let value := lowerStr college.value
    (label = normalizedName || value = normalizedName)
    || (includesB label normalizedName || includesB normalizedName label
        || includesB value normalizedName || includesB normalizedName value))).map
    (·.value)

/-- The static persona and formatting block opening the system prompt. -/
def basePrompt : Str :=
  ("You are Unipreply Advisor, a helpful AI assistant for college admissions. "
    ++ "You help students and parents navigate the college application process, "
    ++ "understand admissions data, compare schools, and make informed decisions."
    ++ "\n\nBe concise, friendly, and informative. When discussing specific colleges, "
    ++ "use the Common Data Set (CDS) data provided below. If data is not available "
    ++ "for a school, acknowledge that."
    ++ "\n\nFORMATTING RULES:"
    ++ "\n1. Do NOT use asterisks (*) for bold or italics"
    ++ "\n2. For bullet points, use dashes (-) only"
    ++ "\n3. Write school names in plain text, not bold"
    ++ "\n4. When comparing 2+ schools, ALWAYS use a simple text table format like this:"
    ++ "\n\nMetric            | Yale    | Brown"
    ++ "\n------------------|---------|--------"
    ++ "\nAcceptance Rate   | 3.9%    | 5.4%"
    ++ "\nSAT Middle 50%    | 1480-1560| 1510-1560"
    ++ "\n\n5. Tables make comparisons much easier to read - use them!").toList

/-- The disclaimer clause appended when no mentioned school has data. -/
def noDataNote : Str :=
  ("\n\nNote: No CDS data is currently available in the database for the "
    ++ "mentioned schools. You can provide general information but note that "
    ++ "specific statistics may not be current.").toList

/-- The scholarship-block layout instructions appended after scholarship
data. -/
def scholarshipFormatInstructions : Str :=
  ("\n\nIMPORTANT FORMATTING for scholarship responses:"
    ++ "\n1. Start with a brief intro sentence"
    ++ "\n2. Then show each scholarship in a clearly separated block using this format:"
    ++ "\n\n---\nSCHOLARSHIP: [Name]\nAmount: [amount]\nDeadline: [deadline]"
    ++ "\nEligibility: [requirements]\nType: [scholarship type]\nMore Info: [URL]\n---"
    ++ "\n\n3. Use the dashed lines (---) to create visual separation between scholarships"
    ++ "\n4. Always include the source URL at the end"
    ++ "\n5. Keep the scholarship data visually distinct from your commentary").toList

/-- The system-prompt composition of the handler (lines building
`systemPrompt`): persona, optional page-context clause, CDS section or
no-data disclaimer, optional scholarship section. -/
def composeSystemPrompt (contextCollege : Option Str)
    (cdsDataMap : List (Str × CDSRecord)) (schoolsToCompare : List Str)
    (asking : Bool) (scholarshipsMap : List (Str × List Scholarship)) : Str :=
  let p1 := basePrompt ++
    (match contextCollege with
     | some nm =>
       if nm ≠ [] then
         "\n\nThe user is currently viewing the page for ".toList ++ nm ++ ".".toList
       else []
     | none => [])
  let p2 :=
    if cdsDataMap.length ≠ 0 then
      p1 ++ "\n\n=== COMMON DATA SET INFORMATION ===\n".toList
        ++ (cdsDataMap.flatMap (fun sd =>
              "\n--- ".toList ++ jsOrStr sd.2.institution sd.1 ++ " (".toList
                ++ jsOrStr sd.2.common_data_set "CDS".toList ++ ") ---\n".toList
                ++ formatCDSForPrompt sd.2))
        ++ "\n=== END CDS DATA ===".toList
    else if schoolsToCompare.length ≠ 0 ∧ !asking then p1 ++ noDataNote
    else p1
  if asking ∧ scholarshipsMap.length ≠ 0 then
    p2 ++ "\n\n=== SCHOLARSHIP INFORMATION ===\n".toList
      ++ (scholarshipsMap.flatMap (fun ss => formatScholarshipsForPrompt ss.2 ss.1))
      ++ "\n=== END SCHOLARSHIP DATA ===".toList
      ++ scholarshipFormatInstructions
  else p2

/-- The candidate list after the handler's page-context unshift. -/
def handlerSchools (message : Str) (contextCollege : Option Str) : List Str :=
  let schoolsToCompare := extractSchoolNames message
  match contextCollege with
  | some cname =>
    if cname ≠ [] ∧ ¬ schoolsToCompare.any (fun s =>
        includesB (lowerStr s) (firstWord (lowerStr cname))
          || includesB (lowerStr cname) (lowerStr s)) then
      cname :: schoolsToCompare
    else schoolsToCompare
  | none => schoolsToCompare

/-- The handler's CDS fetch loop over the first three candidates:
successful fetches in iteration order keyed by the candidate string. -/
def buildCdsMap (store : List CDSRecord) (schools : List Str) :
    List (Str × CDSRecord) :=
  (schools.take 3).filterMap
    (fun school => (fetchCollegeCDS store school).map (fun d => (school, d)))

/-- End-to-end prompt composition for a request whose message does not
ask about scholarships (the handler's scholarship fetch loop leaves the
scholarship map empty). -/
def chatSystemPrompt (store : List CDSRecord) (message : Str)
    (contextCollege : Option Str) : Str :=
  let schools := handlerSchools message contextCollege
  composeSystemPrompt contextCollege (buildCdsMap store schools) schools
    (isAskingAboutScholarships message) []

/-!
The client response renderer (`ChatMessage` component): segmentation into
text, table, and scholarship parts, and pipe-table decoding.
-/

/-- `/^-+$/.test(cell)`: the cell is one or more dashes and nothing else. -/
def isAllDashes (s : Str) : Bool := s ≠ [] && s.all (· = '-')

/-- `/^[\s|:-]+$/.test(line)`: a markdown separator row. -/
def isSeparatorRow (s : Str) : Bool :=
  s ≠ [] && s.all (fun c => jsIsSpace c || c = '|' || c = ':' || c = '-')

/-- The decoded block returned by `parseTable`. -/
structure TableData where
  headers : List Str
  rows : List (List Str)
deriving DecidableEq

/-- The per-line callback of `parseTable`'s data-row loop: skip separator
rows, split on pipes, trim cells, drop a leading empty cell, drop
dash-only cells, and reject lines with no surviving cells. -/
def parseTableRow (line : Str) : Option (List Str) :=
  if isSeparatorRow line then none
  else
    let cells0 := (jsSplitChar '|' line).map jsTrim
    let cells :=
      match cells0 with
      | [] => []
      | c0 :: restCells => if c0 = [] then restCells else cells0
    let cleanCells := cells.filter (fun c => !(isAllDashes c))
    if cleanCells.length ≠ 0 then some cleanCells else none

/-- `parseTable`: trim, split into lines, keep pipe lines, decode the
first as the header row and the rest as data rows, skipping separator
rows; `null` when fewer than two lines, fewer than two pipe lines, no
headers, or no data rows survive. -/
def parseTable (text : Str) : Option TableData :=
  let lines := jsSplitChar '\n' (jsTrim text)
  if lines.length < 2 then none
  else
    let tableLines := lines.filter (fun l => l.contains '|')
    if tableLines.length < 2 then none
    else
      let headers := ((jsSplitChar '|' (tableLines.headD [])).map jsTrim).filter
        (fun c => c.length ≠ 0 && !(isAllDashes c))
      if headers.length = 0 then none
      else
        let rows := (tableLines.drop 1).filterMap parseTableRow
        if rows.length ≠ 0 then some ⟨headers, rows⟩ else none

/-- The three part kinds produced by the renderer's segmentation. -/
inductive PartType where
  | text
  | table
  | scholarship
deriving DecidableEq

/-- One segment produced by `parseContent`. -/
structure RenderPart where
  type : PartType
  content : Str
deriving DecidableEq

/-- A line belongs to a table run when it contains a pipe and is not
blank. -/
def looksLikeTable (line : Str) : Bool :=
  line.contains '|' && (jsTrim line).length ≠ 0

/-- The line loop of `parseTextAndTables`, carrying the accumulated text
and table runs. -/
def parseTextAndTablesGo :
    List Str → List Str → List Str → Bool → List RenderPart
  | [], currentText, currentTable, _ =>
    (if currentText.length ≠ 0 then [⟨.text, joinChar '\n' currentText⟩] else [])
      ++ (if currentTable.length ≠ 0 then [⟨.table, joinChar '\n' currentTable⟩] else [])
  | line :: rest, currentText, currentTable, inTable =>
    if looksLikeTable line then
      if ¬ inTable ∧ currentText.length ≠ 0 then
        ⟨.text, joinChar '\n' currentText⟩
          :: parseTextAndTablesGo rest [] (currentTable ++ [line]) true
      else parseTextAndTablesGo rest currentText (currentTable ++ [line]) true
    else
      if inTable ∧ currentTable.length ≠ 0 then
        ⟨.table, joinChar '\n' currentTable⟩
          :: parseTextAndTablesGo rest (currentText ++ [line]) [] false
      else parseTextAndTablesGo rest (currentText ++ [line]) currentTable false

/-- `parseTextAndTables`: split content into alternating text runs and
pipe-table runs. -/
def parseTextAndTables (content : Str) : List RenderPart :=
  parseTextAndTablesGo (jsSplitChar '\n' content) [] [] false

/-- The split on `/^---$/m`: a separator is a line that is exactly three
dashes; the matched dashes are dropped and the surrounding newlines stay
with the neighbouring segments, as `String.prototype.split` does. -/
def splitDashGo : Nat → Str → Str → Bool → List Str
  | 0, s, cur, _ => [cur ++ s]
  | _ + 1, [], cur, _ => [cur]
  | fuel + 1, c :: rest, cur, atStart =>
    if atStart ∧ c = '-' ∧ rest.take 2 = ['-', '-']
        ∧ (rest.drop 2 = [] ∨ (rest.drop 2).head? = some '\n') then
      cur :: splitDashGo fuel (rest.drop 2) [] false
    else splitDashGo fuel rest (cur ++ [c]) (c = '\n')

/-- `content.split(/^---$/m)`; the fuel is the input length, enough
because every step consumes at least one character. -/
def splitDashLines (s : Str) : List Str := splitDashGo s.length s [] true

/-- A single character of a class, as a pattern. -/
def pcls (p : Char → Bool) : Pat Char := fun s =>
  match s with
  | c :: r => if p c then [(c, r)] else []
  | [] => []

/-- `[^\n]`. -/
def notNl (c : Char) : Bool := c ≠ '\n'

/-- `[A-Z]`. -/
def upperAZ (c : Char) : Bool := 'A' ≤ c && c ≤ 'Z'

/-- `(?:\n(?!SCHOLARSHIP:)[^\n]*)`, one continuation line of a
scholarship run. -/
def scholLineBody : Pat Str :=
  pbind (plitCI "\n".toList) fun nl =>
  pbind (pnlook (plitCI "SCHOLARSHIP:".toList)) fun _ =>
  pbind (pstarG notNl) fun cs => pret (nl ++ cs)

/-- `(?=\nSCHOLARSHIP:|\n\n(?=[A-Z])|$)`, the boundary ending a
scholarship run. -/
def scholEndAlt : Pat Str :=
  palt (plitCI "\nSCHOLARSHIP:".toList)
    (palt (pbind (plitCI "\n\n".toList) fun x =>
        pbind (plook (pcls upperAZ)) fun _ => pret x)
      (pbind pend fun _ => pret []))

/-- `/SCHOLARSHIP:\s*[^\n]+(?:\n(?!SCHOLARSHIP:)[^\n]*)*?(?=\nSCHOLARSHIP:|\n\n(?=[A-Z])|$)/gi`,
returning the whole matched text (`match[0]`). -/
def scholPat : Pat Str := fun s =>
  (pbind (plitCI "SCHOLARSHIP:".toList) fun h =>
   pbind (pstarG jsIsSpace) fun sp =>
   pbind (pplusG notNl) fun fl =>
   pbind (pstarLazy scholLineBody s.length) fun body =>
   pbind (plook scholEndAlt) fun _ =>
   pret (h ++ sp ++ fl ++ body)) s

/-- Collect all matches of a whole-match pattern together with the text
before each match and the remainder after the last one (the slicing by
`match.index` / `lastIndex` in the fallback loop). -/
def collectMatches (p : Pat Str) : Str → Nat → (List (Str × Str) × Str)
  | s, 0 => ([], s)
  | s, fuel + 1 =>
    match firstMatch p s with
    | none => ([], s)
    | some (before, m, rest) =>
      if rest.length < s.length then
        let mt := collectMatches p rest fuel
        ((before, m) :: mt.1, mt.2)
      else
        match s with
        | [] => ([(before, m)], [])
        | _ :: t =>
          let mt := collectMatches p t fuel
          ((before, m) :: mt.1, mt.2)

/-- The scholarship-segment heuristic of `parseContent`. -/
def segmentIsScholarship (segment : Str) : Bool :=
  includesCI segment "SCHOLARSHIP:".toList
    || (includesCI segment "Amount:".toList
        && (includesCI segment "Deadline:".toList
            || includesCI segment "Eligibility:".toList))

/-- `parseContent`: split on `---` lines, classify each trimmed segment
as scholarship or text/tables; when no `---` delimiter exists, rescan
the raw content for `SCHOLARSHIP:`-anchored runs; fall back to
text/tables when nothing was produced. -/
def parseContent (content : Str) : List RenderPart :=
  let segments := splitDashLines content
  let parts := segments.flatMap (fun seg0 =>
    let segment := jsTrim seg0
    if segment = [] then []
    else if segmentIsScholarship segment then [⟨.scholarship, segment⟩]
    else parseTextAndTables segment)
  let parts2 :=
    if segments.length ≤ 1 then
      let mt := collectMatches scholPat content (content.length + 1)
      if mt.1.length ≠ 0 then
        (mt.1.flatMap (fun bm =>
          (if jsTrim bm.1 ≠ [] then parseTextAndTables (jsTrim bm.1) else [])
            ++ [⟨.scholarship, jsTrim bm.2⟩]))
          ++ (if jsTrim mt.2 ≠ [] then parseTextAndTables (jsTrim mt.2) else [])
      else parts
    else parts
  if parts2.length ≠ 0 then parts2 else parseTextAndTables content

/-- A rendered block of the `ChatMessage` component. -/
inductive RenderedBlock where
  | tableBlock (headers : List Str) (rows : List (List Str))
  | preBlock (content : Str)
  | textBlock (content : Str)
  | scholarshipBlock (content : Str)
deriving DecidableEq

/-- The per-part dispatch of `ChatMessage`: a table part is decoded by
`parseTable` and degrades to a preformatted text block when decoding
returns `null`. -/
def renderPart (part : RenderPart) : RenderedBlock :=
  match part.type with
  | .scholarship => .scholarshipBlock part.content
  | .table =>
    match parseTable part.content with
    | some t => .tableBlock t.headers t.rows
    | none => .preBlock part.content
  | .text => .textBlock part.content

/-- The full client rendering of one assistant message. -/
def renderMessage (content : Str) : List RenderedBlock :=
  (parseContent content).map renderPart

/-!
Claim theorems.
-/

/-- C2: for every chat request, an exception before response headers are
sent yields HTTP 429 with the cooldown message exactly when the error
text contains `429` or `quota`, and HTTP 500 with the raw error message
otherwise; an exception after streaming has begun is reported as a
single in-band `data:` error event followed by stream closure, with no
HTTP status emitted. -/
theorem chat_error_classification (headersSent : Bool) (msg : Str) :
    (headersSent = false ∧
        (includesB msg "429".toList || includesB msg "quota".toList) = true →
      handleChatError headersSent msg = ErrorReport.httpJson 429 rateLimitMessage)
    ∧ (headersSent = false ∧
        (includesB msg "429".toList || includesB msg "quota".toList) = false →
      handleChatError headersSent msg = ErrorReport.httpJson 500 msg)
    ∧ (headersSent = true →
      handleChatError headersSent msg =
        ErrorReport.streamEvent
          (sseErrorWrite (if includesB msg "429".toList || includesB msg "quota".toList then
            rateLimitMessage else msg)) true) :=
  ⟨fun h => by
      obtain ⟨h1, h2⟩ := h
      subst h1
      unfold handleChatError
      rw [h2]
      rfl,
   fun h => by
      obtain ⟨h1, h2⟩ := h
      subst h1
      unfold handleChatError
      rw [h2]
      rfl,
   fun h => by subst h; rfl⟩

/-- C2 witness: a concrete quota error before headers were sent is
reported as HTTP 429 with the cooldown message. -/
theorem chat_error_classification_witness :
    handleChatError false "quota exceeded for model".toList =
      ErrorReport.httpJson 429 rateLimitMessage :=
  (chat_error_classification false "quota exceeded for model".toList).1 ⟨rfl, by decide⟩

/-- An institution record holding only a name, used to exhibit the
overmatching of the fetch predicate. -/
def vermontRec : CDSRecord :=
  { institution := some "University of Vermont".toList
    common_data_set := none
    a1_address := none
    b1_enrollment := none
    b22_retention_rate := none
    c1_applications := none
    c9_profile := none
    g1_costs := none
    h2_freshmen_aid := none
    i2_student_faculty_ratio := none }

/-- C5: the match predicate of `fetchCollegeCDS` accepts a stored record
whenever the first word of the record's institution name occurs in the
normalized query, so a query naming an absent institution (here
`Fooville University` against a store holding only the University of
Vermont) is answered with a different institution's record. -/
theorem fetch_first_word_overmatch :
    (∀ (data : CDSRecord) (query : Str),
        includesB (jsTrim (lowerStr query)) (firstWord (cdsInstName data)) = true →
        cdsMatches data (jsTrim (lowerStr query)) = true)
    ∧ fetchCollegeCDS [vermontRec] "Fooville University".toList = some vermontRec
    ∧ cdsInstName vermontRec ≠ jsTrim (lowerStr "Fooville University".toList)
    ∧ includesB (cdsInstName vermontRec) (jsTrim (lowerStr "Fooville University".toList))
        = false := by
  refine ⟨?_, by decide, by decide, by decide⟩
  intro data query h
  simp [cdsMatches, h]

/-- C5 witness: the first-word acceptance applied at the concrete record
and query. -/
theorem fetch_first_word_overmatch_witness :
    cdsMatches vermontRec (jsTrim (lowerStr "Fooville University".toList)) = true :=
  fetch_first_word_overmatch.1 vermontRec "Fooville University".toList (by decide)

/-- C7: resolving the exact label text of every entry of the (spec-
modelled) static catalog through `findCollegeId` yields that entry's own
key. -/
theorem catalog_label_roundtrip :
    ∀ e ∈ collegesCatalog, findCollegeId e.label = some e.value := by decide

/-- C7 witness: the round-trip at the concrete Brown entry. -/
theorem catalog_label_roundtrip_witness :
    findCollegeId "Brown University".toList = some "brown".toList :=
  catalog_label_roundtrip ⟨"brown".toList, "Brown University".toList⟩ (by decide)

/-- The acceptance-rate line predicate: a digest line beginning
`Acceptance Rate:`. -/
def isAcceptanceRateLine (l : Str) : Bool := isPrefixB "Acceptance Rate:".toList l

theorem filter_acc_a1 (o : Option AddressInfo) :
    (match o with
     | some addr =>
       ["Location: ".toList ++ renderStrOpt addr.city_state_zip_country,
        "Website: ".toList ++ renderStrOpt addr.www_home_page_address]
     | none => ([] : List Str)).filter isAcceptanceRateLine = [] := by
  cases o <;> rfl

theorem filter_acc_b1 (o : Option EnrollmentByGender) :
    (match o with
     | some e =>
       ["Total Undergraduates: ".toList ++ renderNatOpt e.total_all_undergraduate,
        "Total Graduate: ".toList ++ renderNatOpt e.total_all_graduate_and_professional]
     | none => ([] : List Str)).filter isAcceptanceRateLine = [] := by
  cases o <;> rfl

theorem filter_acc_b22 (o : Option Str) :
    (match o with
     | some r => if r ≠ [] then ["Retention Rate: ".toList ++ r] else []
     | none => ([] : List Str)).filter isAcceptanceRateLine = [] := by
  cases o with
  | none => rfl
  | some r =>
    show (if r ≠ [] then ["Retention Rate: ".toList ++ r] else []).filter
      isAcceptanceRateLine = []
    rcases eq_or_ne r [] with h | h
    · simp [h]
    · rw [if_pos h]; rfl

theorem filter_acc_c9 (o : Option TestProfileC9) :
    (match o with
     | some sc =>
       (match sc.sat_composite with
        | some l =>
          ["SAT Composite (25th/50th/75th): ".toList
            ++ joinStr "/".toList (l.map (fun n => (toString n).toList))]
        | none => [])
       ++ (match sc.act_composite with
        | some l =>
          ["ACT Composite (25th/50th/75th): ".toList
            ++ joinStr "/".toList (l.map (fun n => (toString n).toList))]
        | none => [])
       ++ ["% Submitting SAT: ".toList ++ renderNatOpt sc.percent_submitting_sat,
           "% Submitting ACT: ".toList ++ renderNatOpt sc.percent_submitting_act]
     | none => ([] : List Str)).filter isAcceptanceRateLine = [] := by
  cases o with
  | none => rfl
  | some sc =>
    obtain ⟨sat, act, ps, pa⟩ := sc
    cases sat <;> cases act <;> rfl

theorem filter_acc_g1 (o : Option CostsG1) :
    (match o with
     | some c =>
       ["Tuition: ".toList ++ renderTuition c.tuition,
        "Room & Board: ".toList ++ renderNatOpt c.food_and_housing_on_campus]
     | none => ([] : List Str)).filter isAcceptanceRateLine = [] := by
  cases o <;> rfl

theorem filter_acc_h2 (o : Option FreshmenAidH2) :
    (match o with
     | some f =>
       ["Avg Financial Aid Package: ".toList ++ renderNatOpt f.average_financial_aid_package,
        "Avg Need-Based Grant: ".toList ++ renderNatOpt f.average_need_based_scholarship_grant]
     | none => ([] : List Str)).filter isAcceptanceRateLine = [] := by
  cases o <;> rfl

theorem filter_acc_i2 (o : Option Str) :
    (match o with
     | some r => if r ≠ [] then ["Student-Faculty Ratio: ".toList ++ r] else []
     | none => ([] : List Str)).filter isAcceptanceRateLine = [] := by
  cases o with
  | none => rfl
  | some r =>
    show (if r ≠ [] then ["Student-Faculty Ratio: ".toList ++ r] else []).filter
      isAcceptanceRateLine = []
    rcases eq_or_ne r [] with h | h
    · simp [h]
    · rw [if_pos h]; rfl

theorem filter_acc_c1 (o : Option ApplicationsC1) :
    (match o with
     | some apps =>
       ["Applications: ".toList ++ renderNatOpt apps.total_applied,
        "Admitted: ".toList ++ renderNatOpt apps.total_admitted]
       ++ (match apps.total_applied, apps.total_admitted with
           | some ap, some ad =>
             if ap ≠ 0 ∧ ad ≠ 0 then
               ["Acceptance Rate: ".toList ++ toFixedOne ad ap ++ "%".toList]
             else []
           | _, _ => [])
       ++ ["Enrolled: ".toList ++ renderNatOpt apps.total_enrolled]
     | none => ([] : List Str)).filter isAcceptanceRateLine =
      (match o with
       | some apps =>
         match apps.total_applied, apps.total_admitted with
         | some ap, some ad =>
           if ap ≠ 0 ∧ ad ≠ 0 then
             ["Acceptance Rate: ".toList ++ toFixedOne ad ap ++ "%".toList]
           else []
         | _, _ => []
       | none => []) := by
  cases o with
  | none => rfl
  | some apps =>
    obtain ⟨ap, ad, en⟩ := apps
    cases ap with
    | none => cases ad <;> rfl
    | some a =>
      cases ad with
      | none => rfl
      | some b =>
        by_cases h : a ≠ 0 ∧ b ≠ 0
        · simp only [List.filter_append, if_pos h]
          rfl
        · simp only [List.filter_append, if_neg h]
          rfl

/-- A record carrying only the applied/admitted counts 1000 and 100. -/
def rec1000 : CDSRecord :=
  { institution := some "Example College".toList
    common_data_set := none
    a1_address := none
    b1_enrollment := none
    b22_retention_rate := none
    c1_applications := some { total_applied := some 1000, total_admitted := some 100,
                              total_enrolled := none }
    c9_profile := none
    g1_costs := none
    h2_freshmen_aid := none
    i2_student_faculty_ratio := none }

/-- C8: the composer's digest contains an acceptance-rate line exactly
when both the applied and admitted counts are present and truthy, and
that line carries `admitted/applied*100` rounded to one decimal; for
applied 1000 and admitted 100 the digest contains `10.0%`; with either
count missing or zero, no acceptance-rate line appears at all. -/
theorem acceptance_rate_emission (data : CDSRecord) :
    ((formatCDSSections data).filter isAcceptanceRateLine =
      (match data.c1_applications with
       | some apps =>
         match apps.total_applied, apps.total_admitted with
         | some ap, some ad =>
           if ap ≠ 0 ∧ ad ≠ 0 then
             ["Acceptance Rate: ".toList ++ toFixedOne ad ap ++ "%".toList]
           else []
         | _, _ => []
       | none => []))
    ∧ includesB (formatCDSForPrompt rec1000) "10.0%".toList = true
    ∧ toFixedOne 100 1000 = "10.0".toList := by
  refine ⟨?_, by decide, by decide⟩
  unfold formatCDSSections
  simp only [List.filter_append, filter_acc_a1, filter_acc_b1, filter_acc_b22,
    filter_acc_c1, filter_acc_c9, filter_acc_g1, filter_acc_h2, filter_acc_i2]
  simp

/-- `takeWhile` up to the first delimiter returns the delimiter-free
prefix. -/
theorem takeWhile_neq_append (d : Char) (s t : Str) (h : ∀ c ∈ s, c ≠ d) :
    (s ++ d :: t).takeWhile (· ≠ d) = s := by
  induction s with
  | nil => simp [List.takeWhile]
  | cons c s ih =>
    have hc : c ≠ d := h c (by simp)
    simp only [List.cons_append, List.takeWhile_cons]
    rw [if_pos (by simpa using hc)]
    rw [ih (fun x hx => h x (by simp [hx]))]

/-- `dropWhile` up to the first delimiter lands on it. -/
theorem dropWhile_neq_append (d : Char) (s t : Str) (h : ∀ c ∈ s, c ≠ d) :
    (s ++ d :: t).dropWhile (· ≠ d) = d :: t := by
  induction s with
  | nil => simp [List.dropWhile]
  | cons c s ih =>
    have hc : c ≠ d := h c (by simp)
    simp only [List.cons_append, List.dropWhile_cons]
    rw [if_pos (by simpa using hc)]
    exact ih (fun x hx => h x (by simp [hx]))

/-- Whether two adjacent copies of the delimiter occur anywhere. -/
def hasDoubled (d : Char) : Str → Bool
  | a :: b :: t => (a = d && b = d) || hasDoubled d (b :: t)
  | _ => false

/-- The doubled pass ignores an empty input at any fuel. -/
theorem strip_double_go_nil (d : Char) : ∀ fuel, stripPairedDoubleGo d fuel [] = [] := by
  intro fuel
  cases fuel <;> rfl

/-- Without adjacent doubled delimiters, the doubled-delimiter pass is
the identity. -/
theorem strip_double_go_noDoubled (d : Char) :
    ∀ fuel (s : Str), s.length ≤ fuel → hasDoubled d s = false →
      stripPairedDoubleGo d fuel s = s := by
  intro fuel
  induction fuel with
  | zero => intro s _ _; rfl
  | succ n ih =>
    intro s hlen hnd
    match s with
    | [] => rfl
    | [c] => rfl
    | c1 :: c2 :: rest =>
      rw [hasDoubled] at hnd
      simp only [Bool.or_eq_false_iff, Bool.and_eq_false_iff] at hnd
      rw [stripPairedDoubleGo]
      rw [if_neg (fun hcond => by
        rcases hnd.1 with hbad | hbad <;> simp [hcond.1, hcond.2.1] at hbad)]
      have : stripPairedDoubleGo d n (c2 :: rest) = c2 :: rest := by
        refine ih (c2 :: rest) ?_ hnd.2
        simp at hlen ⊢
        omega
      rw [this]

/-- A delimiter-free string has no doubled delimiter. -/
theorem hasDoubled_all_ne (d : Char) :
    ∀ s : Str, (∀ c ∈ s, c ≠ d) → hasDoubled d s = false := by
  intro s
  induction s with
  | nil => intro _; rfl
  | cons c rest ih =>
    intro h
    match rest, ih with
    | [], _ => rfl
    | b :: t, ih =>
      rw [hasDoubled]
      have hc : c ≠ d := h c (by simp)
      simp only [Bool.or_eq_false_iff, Bool.and_eq_false_iff]
      exact ⟨Or.inl (by simpa using hc), ih (fun x hx => h x (by simp [hx]))⟩

/-- A delimiter-free string passes the doubled pass unchanged. -/
theorem strip_double_all_ne (d : Char) (s : Str) (h : ∀ c ∈ s, c ≠ d) :
    stripPairedDouble d s = s :=
  strip_double_go_noDoubled d s.length s le_rfl (hasDoubled_all_ne d s h)

/-- Content wrapped in one single delimiter on each side has no doubled
delimiter. -/
theorem hasDoubled_mid (d : Char) (s : Str) (hne : s ≠ [])
    (h : ∀ c ∈ s, c ≠ d) : hasDoubled d (d :: (s ++ [d])) = false := by
  have aux : ∀ u : Str, (∀ c ∈ u, c ≠ d) → hasDoubled d (u ++ [d]) = false := by
    intro u
    induction u with
    | nil => intro _; rfl
    | cons x u' ih =>
      intro hu
      have hx : x ≠ d := hu x (by simp)
      match u' with
      | [] =>
        show hasDoubled d [x, d] = false
        rw [hasDoubled]
        simp only [Bool.or_eq_false_iff, Bool.and_eq_false_iff]
        exact ⟨Or.inl (by simpa using hx), rfl⟩
      | y :: u'' =>
        show hasDoubled d (x :: y :: (u'' ++ [d])) = false
        rw [hasDoubled]
        simp only [Bool.or_eq_false_iff, Bool.and_eq_false_iff]
        refine ⟨Or.inl (by simpa using hx), ?_⟩
        have := ih (fun c hc => hu c (by simp [hc]))
        simpa using this
  match s with
  | c :: s' =>
    show hasDoubled d (d :: c :: (s' ++ [d])) = false
    rw [hasDoubled]
    simp only [Bool.or_eq_false_iff, Bool.and_eq_false_iff]
    refine ⟨Or.inr (by simpa using (h c (by simp))), ?_⟩
    have := aux (c :: s') h
    simpa using this

/-- Content wrapped in single delimiters passes the doubled pass
unchanged. -/
theorem strip_double_of_mid (d : Char) (s : Str) (hne : s ≠ [])
    (h : ∀ c ∈ s, c ≠ d) :
    stripPairedDouble d (d :: (s ++ [d])) = d :: (s ++ [d]) :=
  strip_double_go_noDoubled d _ _ le_rfl (hasDoubled_mid d s hne h)

/-- The doubled pass removes one pair of doubled delimiters around
nonempty delimiter-free content, at any sufficient fuel. -/
theorem strip_double_go_pair (d : Char) (s : Str) (hne : s ≠ [])
    (h : ∀ c ∈ s, c ≠ d) :
    ∀ fuel, 1 ≤ fuel →
      stripPairedDoubleGo d fuel (d :: d :: (s ++ [d, d])) = s := by
  have htake : (s ++ [d, d]).takeWhile (· ≠ d) = s := by
    have := takeWhile_neq_append d s [d] h
    simpa using this
  have hdrop : (s ++ [d, d]).dropWhile (· ≠ d) = [d, d] := by
    have := dropWhile_neq_append d s [d] h
    simpa using this
  intro fuel hf
  match fuel, hf with
  | n + 1, _ =>
    rw [stripPairedDoubleGo]
    rw [if_pos ⟨rfl, rfl, by rw [htake]; exact hne, by rw [hdrop]; rfl⟩]
    rw [htake, hdrop]
    simp [strip_double_go_nil]

/-- The doubled pass removes one pair of doubled delimiters around
nonempty delimiter-free content. -/
theorem strip_double_pair (d : Char) (s : Str) (hne : s ≠ [])
    (h : ∀ c ∈ s, c ≠ d) :
    stripPairedDouble d (d :: d :: (s ++ [d, d])) = s := by
  unfold stripPairedDouble
  exact strip_double_go_pair d s hne h _ (by simp)

/-- The single pass ignores an empty input at any fuel. -/
theorem strip_single_go_nil (d : Char) : ∀ fuel, stripPairedSingleGo d fuel [] = [] := by
  intro fuel
  cases fuel <;> rfl

/-- A delimiter-free string passes the single-delimiter pass unchanged. -/
theorem strip_single_go_all_ne (d : Char) :
    ∀ fuel (s : Str), s.length ≤ fuel → (∀ c ∈ s, c ≠ d) →
      stripPairedSingleGo d fuel s = s := by
  intro fuel
  induction fuel with
  | zero => intro s _ _; rfl
  | succ n ih =>
    intro s hlen h
    match s with
    | [] => rfl
    | c :: rest =>
      have hc : c ≠ d := h c (by simp)
      rw [stripPairedSingleGo]
      rw [if_neg (fun hcond => hc hcond.1)]
      have : stripPairedSingleGo d n rest = rest := by
        refine ih rest ?_ (fun x hx => h x (by simp [hx]))
        simp at hlen
        omega
      rw [this]

/-- A delimiter-free string passes the single pass unchanged. -/
theorem strip_single_all_ne (d : Char) (s : Str) (h : ∀ c ∈ s, c ≠ d) :
    stripPairedSingle d s = s :=
  strip_single_go_all_ne d s.length s le_rfl h

/-- The single pass removes one pair of single delimiters around
nonempty delimiter-free content, at any sufficient fuel. -/
theorem strip_single_go_pair (d : Char) (s : Str) (hne : s ≠ [])
    (h : ∀ c ∈ s, c ≠ d) :
    ∀ fuel, 1 ≤ fuel →
      stripPairedSingleGo d fuel (d :: (s ++ [d])) = s := by
  have htake : (s ++ [d]).takeWhile (· ≠ d) = s := by
    have := takeWhile_neq_append d s [] h
    simpa using this
  have hdrop : (s ++ [d]).dropWhile (· ≠ d) = [d] := by
    have := dropWhile_neq_append d s [] h
    simpa using this
  intro fuel hf
  match fuel, hf with
  | n + 1, _ =>
    rw [stripPairedSingleGo]
    rw [if_pos ⟨rfl, by rw [htake]; exact hne, by rw [hdrop]; simp⟩]
    rw [htake, hdrop]
    simp [strip_single_go_nil]

/-- The single pass removes one pair of single delimiters around
nonempty delimiter-free content. -/
theorem strip_single_pair (d : Char) (s : Str) (hne : s ≠ [])
    (h : ∀ c ∈ s, c ≠ d) :
    stripPairedSingle d (d :: (s ++ [d])) = s := by
  unfold stripPairedSingle
  exact strip_single_go_pair d s hne h _ (by simp)

/-- The JSON escaper never emits a newline. -/
theorem jsonEscapeChar_no_nl (c : Char) : '\n' ∉ jsonEscapeChar c := by
  have hdigit : ∀ n, n < 16 → Nat.digitChar n ≠ '\n' := by decide
  unfold jsonEscapeChar
  split_ifs with h1 h2 h3 h4 h5 h6 h7 h8
  · decide
  · decide
  · decide
  · decide
  · decide
  · decide
  · decide
  · intro hmem
    rcases List.mem_cons.mp hmem with hx | hmem
    · exact absurd hx (by decide)
    rcases List.mem_cons.mp hmem with hx | hmem
    · exact absurd hx (by decide)
    rcases List.mem_cons.mp hmem with hx | hmem
    · exact absurd hx (by decide)
    rcases List.mem_cons.mp hmem with hx | hmem
    · exact absurd hx (by decide)
    rcases List.mem_cons.mp hmem with hx | hmem
    · exact hdigit (c.toNat / 16) (by omega) hx.symm
    rcases List.mem_cons.mp hmem with hx | hmem
    · exact hdigit (c.toNat % 16) (Nat.mod_lt _ (by omega)) hx.symm
    · exact absurd hmem (List.not_mem_nil _)
  · intro hmem
    rcases List.mem_cons.mp hmem with hx | hmem
    · exact h3 hx.symm
    · exact absurd hmem (List.not_mem_nil _)

/-- A JSON-stringified value contains no raw newline: the event for one
fragment occupies one line. -/
theorem jsonStringify_no_nl (s : Str) : '\n' ∉ jsonStringify s := by
  unfold jsonStringify
  intro hmem
  rcases List.mem_cons.mp hmem with hx | hmem
  · exact absurd hx (by decide)
  rcases List.mem_append.mp hmem with hmem | hmem
  · rcases List.mem_flatMap.mp hmem with ⟨c, _, hc⟩
    exact jsonEscapeChar_no_nl c hc
  · rcases List.mem_cons.mp hmem with hx | hmem
    · exact absurd hx (by decide)
    · exact absurd hmem (List.not_mem_nil _)

/-- C1: the streaming handler forwards exactly the nonempty fragments,
in order, each stripped of paired emphasis markers and written as one
single-line `data:` content event; empty fragments produce no event; and
the write sequence ends with exactly one `done` event, after which the
stream is closed.  The final conjunct certifies that the stripper removes
a balanced pair of `**`, `*`, `__` or `_` markers around marker-free
content. -/
theorem stream_forwarding_contract :
    (∀ fragments : List Str,
      streamWrites fragments =
        (fragments.filter (· ≠ [])).map (fun f => sseContentWrite (stripFormatting f))
          ++ [sseDoneWrite])
    ∧ (∀ text : Str,
        sseContentWrite text =
          "data: ".toList
            ++ ("\x7b\"content\":".toList ++ jsonStringify text ++ ['\x7d'])
            ++ ['\n', '\n']
        ∧ '\n' ∉ ("\x7b\"content\":".toList ++ jsonStringify text ++ ['\x7d']))
    ∧ (∀ text : Str, sseContentWrite text ≠ sseDoneWrite)
    ∧ (∀ s : Str, s ≠ [] → (∀ c ∈ s, c ≠ '*' ∧ c ≠ '_') →
        stripFormatting ('*' :: '*' :: (s ++ ['*', '*'])) = s
        ∧ stripFormatting ('*' :: (s ++ ['*'])) = s
        ∧ stripFormatting ('_' :: '_' :: (s ++ ['_', '_'])) = s
        ∧ stripFormatting ('_' :: (s ++ ['_'])) = s) := by
  refine ⟨?_, ?_, ?_, ?_⟩
  · intro fragments
    induction fragments with
    | nil => rfl
    | cons f rest ih =>
      by_cases hf : f = []
      · simp [streamWrites, hf, ih]
      · simp [streamWrites, hf, ih]
  · intro text
    refine ⟨by simp [sseContentWrite], ?_⟩
    intro hmem
    rcases List.mem_append.mp hmem with h | h
    · rcases List.mem_append.mp h with h | h
      · exact absurd h (by decide)
      · exact jsonStringify_no_nl text h
    · rcases List.mem_cons.mp h with hx | h
      · exact absurd hx (by decide)
      · exact absurd h (List.not_mem_nil _)
  · intro text h
    have hc : (sseContentWrite text).get? 8 = some 'c' := rfl
    have hd : sseDoneWrite.get? 8 = some 'd' := rfl
    rw [h, hd] at hc
    simp at hc
  · intro s hne h
    have hstar : ∀ c ∈ s, c ≠ '*' := fun c hc => (h c hc).1
    have hund : ∀ c ∈ s, c ≠ '_' := fun c hc => (h c hc).2
    refine ⟨?_, ?_, ?_, ?_⟩
    · unfold stripFormatting
      rw [strip_double_pair '*' s hne hstar, strip_single_all_ne '*' s hstar,
        strip_double_all_ne '_' s hund, strip_single_all_ne '_' s hund]
    · unfold stripFormatting
      rw [strip_double_of_mid '*' s hne hstar, strip_single_pair '*' s hne hstar,
        strip_double_all_ne '_' s hund, strip_single_all_ne '_' s hund]
    · unfold stripFormatting
      have hall : ∀ c ∈ ('_' :: '_' :: (s ++ ['_', '_'])), c ≠ '*' := by
        intro c hc
        rcases List.mem_cons.mp hc with rfl | hc
        · decide
        rcases List.mem_cons.mp hc with rfl | hc
        · decide
        rcases List.mem_append.mp hc with hc | hc
        · exact hstar c hc
        rcases List.mem_cons.mp hc with rfl | hc
        · decide
        rcases List.mem_cons.mp hc with rfl | hc
        · decide
        · exact absurd hc (List.not_mem_nil _)
      rw [strip_double_all_ne '*' _ hall, strip_single_all_ne '*' _ hall,
        strip_double_pair '_' s hne hund, strip_single_all_ne '_' s hund]
    · unfold stripFormatting
      have hall : ∀ c ∈ ('_' :: (s ++ ['_'])), c ≠ '*' := by
        intro c hc
        rcases List.mem_cons.mp hc with rfl | hc
        · decide
        rcases List.mem_append.mp hc with hc | hc
        · exact hstar c hc
        rcases List.mem_cons.mp hc with rfl | hc
        · decide
        · exact absurd hc (List.not_mem_nil _)
      rw [strip_double_all_ne '*' _ hall, strip_single_all_ne '*' _ hall,
        strip_double_of_mid '_' s hne hund, strip_single_pair '_' s hne hund]

/-- C1 witness: a concrete fragment sequence with an empty fragment and
a bold-marked fragment, forwarded as two stripped single-line events and
one terminal done event. -/
theorem stream_forwarding_contract_witness :
    streamWrites ["**Yale**".toList, [], "ok".toList] =
      [sseContentWrite "Yale".toList, sseContentWrite "ok".toList, sseDoneWrite] := by
  have hyale : stripFormatting ['*', '*', 'Y', 'a', 'l', 'e', '*', '*'] =
      ['Y', 'a', 'l', 'e'] :=
    (stream_forwarding_contract.2.2.2 "Yale".toList (by decide) (by decide)).1
  have hok : stripFormatting ['o', 'k'] = ['o', 'k'] := by
    unfold stripFormatting
    rw [strip_double_all_ne '*' _ (by decide), strip_single_all_ne '*' _ (by decide),
      strip_double_all_ne '_' _ (by decide), strip_single_all_ne '_' _ (by decide)]
  rw [stream_forwarding_contract.1]
  simp [hyale, hok]

/-!
Support lemmas for evaluating the comparison regex on a message of the
exact shape `X vs Y` (or `X versus Y`) with single-word names.
-/

/-- A word character is not whitespace. -/
theorem word_not_space (c : Char) (h : jsIsWord c = true) : jsIsSpace c = false := by
  cases hsp : jsIsSpace c with
  | false => rfl
  | true =>
    exfalso
    have hc : c = ' ' ∨ c = '\t' ∨ c = '\n' ∨ c = '\r' ∨ c = '\x0b' ∨ c = '\x0c' := by
      have := hsp
      unfold jsIsSpace at this
      simpa [or_assoc] using this
    rcases hc with rfl | rfl | rfl | rfl | rfl | rfl <;> exact absurd h (by decide)

/-- `takeWhile` keeps a list all of whose elements satisfy the class. -/
theorem takeWhile_all (p : Char → Bool) (l : Str) (h : ∀ c ∈ l, p c = true) :
    l.takeWhile p = l := by
  induction l with
  | nil => rfl
  | cons c t ih =>
    rw [List.takeWhile_cons, if_pos (h c (by simp))]
    rw [ih (fun x hx => h x (by simp [hx]))]

/-- `dropWhile` drops a list all of whose elements satisfy the class. -/
theorem dropWhile_all (p : Char → Bool) (l : Str) (h : ∀ c ∈ l, p c = true) :
    l.dropWhile p = [] := by
  induction l with
  | nil => rfl
  | cons c t ih =>
    rw [List.dropWhile_cons, if_pos (h c (by simp))]
    exact ih (fun x hx => h x (by simp [hx]))

/-- `takeWhile` stops exactly at the first failing character. -/
theorem takeWhile_stop (p : Char → Bool) (s : Str) (c : Char) (t : Str)
    (hs : ∀ x ∈ s, p x = true) (hc : p c = false) :
    (s ++ c :: t).takeWhile p = s := by
  induction s with
  | nil => simp [List.takeWhile, hc]
  | cons x s ih =>
    rw [List.cons_append, List.takeWhile_cons, if_pos (hs x (by simp))]
    rw [ih (fun x hx => hs x (by simp [hx]))]

/-- `dropWhile` lands exactly on the first failing character. -/
theorem dropWhile_stop (p : Char → Bool) (s : Str) (c : Char) (t : Str)
    (hs : ∀ x ∈ s, p x = true) (hc : p c = false) :
    (s ++ c :: t).dropWhile p = c :: t := by
  induction s with
  | nil => simp [List.dropWhile, hc]
  | cons x s ih =>
    rw [List.cons_append, List.dropWhile_cons, if_pos (hs x (by simp))]
    exact ih (fun x hx => hs x (by simp [hx]))

/-- `\s+` fails on empty input. -/
theorem wsPlus_nil : wsPlus [] = [] := rfl

/-- `\s+` fails at a word character. -/
theorem wsPlus_word (c : Char) (t : Str) (hc : jsIsWord c = true) :
    wsPlus (c :: t) = [] := by
  unfold wsPlus pplusG
  rw [List.takeWhile_cons, if_neg (by simp [word_not_space c hc])]
  rfl

/-- `\s+` fails on an all-word string. -/
theorem wsPlus_allword (t : Str) (h : ∀ c ∈ t, jsIsWord c = true) : wsPlus t = [] := by
  cases t with
  | nil => rfl
  | cons c t' => exact wsPlus_word c t' (h c (by simp))

/-- The single alternative of a case-insensitive literal. -/
theorem mem_plitCI (lit t : Str) (ar : Str × Str) (h : ar ∈ plitCI lit t) :
    ar = (t.take lit.length, t.drop lit.length) := by
  unfold plitCI at h
  split at h
  · simpa using h
  · exact absurd h (List.not_mem_nil ar)

/-- A `flatMap` whose head contribution has a known head. -/
theorem flatMap_headq_cons {α β : Type} {f : α → List β} {l : List α} {hd : α}
    {tl : List α} (h : l = hd :: tl) {z : β} (hz : (f hd).head? = some z) :
    (l.flatMap f).head? = some z := by
  subst h
  rw [List.flatMap_cons]
  cases hfd : f hd with
  | nil => rw [hfd] at hz; exact absurd hz (by simp)
  | cons b bs =>
    rw [hfd] at hz
    simp at hz
    simp [hz]

/-- A `flatMap` with a dead head contribution skips it. -/
theorem flatMap_skip {α β : Type} {f : α → List β} {l : List α} {hd : α}
    {tl : List α} (h : l = hd :: tl) (hdead : f hd = []) :
    l.flatMap f = tl.flatMap f := by
  subst h
  rw [List.flatMap_cons, hdead, List.nil_append]

/-- The single alternative of the empty pattern. -/
theorem mem_pret {α : Type} (a : α) (s : Str) (ar : α × Str) (h : ar ∈ pret a s) :
    ar = (a, s) := by
  unfold pret at h
  simpa using h

/-- Every alternative of the connector group leaves an all-word rest
all-word (it only ever drops characters). -/
theorem vsConnector_rest (t : Str) (ht : ∀ c ∈ t, jsIsWord c = true)
    (ar : Unit × Str) (h : ar ∈ vsConnector t) : ∀ c ∈ ar.2, jsIsWord c = true := by
  have hdrop : ∀ (n : Nat) (c : Char), c ∈ t.drop n → jsIsWord c = true :=
    fun n c hc => ht c (List.drop_subset n t hc)
  have hdrop2 : ∀ (n m : Nat) (c : Char), c ∈ (t.drop n).drop m → jsIsWord c = true :=
    fun n m c hc => hdrop n c (List.drop_subset m (t.drop n) hc)
  unfold vsConnector palt at h
  rcases List.mem_append.mp h with h | h
  · unfold pbind at h
    rcases List.mem_flatMap.mp h with ⟨ar1, har1, h⟩
    have h1 := mem_plitCI _ _ _ har1
    rcases List.mem_flatMap.mp h with ⟨ar2, har2, h⟩
    have h3 := mem_pret _ _ _ h
    subst h3
    unfold poptG at har2
    rcases List.mem_append.mp har2 with har2 | har2
    · rcases List.mem_map.mp har2 with ⟨ar3, har3, heq⟩
      have h4 := mem_plitCI _ _ _ har3
      intro c hc
      have hr : ar2.2 = ar1.2.drop 1 := by
        rw [← heq, h4]
        simp
      simp only [hr, h1] at hc
      exact hdrop2 _ _ c hc
    · have heq : ar2 = (none, ar1.2) := by simpa using har2
      intro c hc
      simp only [heq, h1] at hc
      exact hdrop _ c hc
  rcases List.mem_append.mp h with h | h
  · unfold pbind at h
    rcases List.mem_flatMap.mp h with ⟨ar1, har1, h⟩
    have h1 := mem_plitCI _ _ _ har1
    have h3 := mem_pret _ _ _ h
    subst h3
    intro c hc
    simp only [h1] at hc
    exact hdrop _ c hc
  rcases List.mem_append.mp h with h | h
  · unfold pbind at h
    rcases List.mem_flatMap.mp h with ⟨ar1, har1, h⟩
    have h1 := mem_plitCI _ _ _ har1
    have h3 := mem_pret _ _ _ h
    subst h3
    intro c hc
    simp only [h1] at hc
    exact hdrop _ c hc
  · unfold pbind at h
    rcases List.mem_flatMap.mp h with ⟨ar1, har1, h⟩
    have h1 := mem_plitCI _ _ _ har1
    have h3 := mem_pret _ _ _ h
    subst h3
    intro c hc
    simp only [h1] at hc
    exact hdrop _ c hc

/-- After the connector, the mandatory `\s+` dies inside an all-word
tail: the whole connector continuation fails. -/
theorem connector_then_ws_dead {β : Type} (t : Str)
    (ht : ∀ c ∈ t, jsIsWord c = true) (g3 : Str → Pat β) :
    pbind vsConnector (fun _ => pbind wsPlus g3) t = [] := by
  unfold pbind
  rw [List.flatMap_eq_nil_iff]
  intro ar har
  have hw := wsPlus_allword ar.2 (vsConnector_rest t ht ar har)
  simp [hw]

/-- The head of an append with a known nonempty head part. -/
theorem headq_append_some {α : Type} {l1 l2 : List α} {z : α}
    (h : l1.head? = some z) : (l1 ++ l2).head? = some z := by
  cases l1 with
  | nil => simp at h
  | cons a t => simpa using h

/-- `dropWhile` is the identity when `takeWhile` is empty. -/
theorem dropWhile_of_takeWhile_nil (p : Char → Bool) (t : Str)
    (h : t.takeWhile p = []) : t.dropWhile p = t := by
  cases t with
  | nil => rfl
  | cons c r =>
    rw [List.takeWhile_cons] at h
    rw [List.dropWhile_cons]
    by_cases hc : p c = true
    · rw [if_pos hc] at h; simp at h
    · rw [if_neg hc]

/-- An all-word string starts with no whitespace. -/
theorem takeWhile_space_nil_of_word (t : Str) (h : ∀ c ∈ t, jsIsWord c = true) :
    t.takeWhile jsIsSpace = [] := by
  cases t with
  | nil => rfl
  | cons c r =>
    rw [List.takeWhile_cons, if_neg]
    simp [word_not_space c (h c (by simp))]

/-- A greedy class-plus whose maximal run is a single character. -/
theorem pplusG_single (p : Char → Bool) (c : Char) (t : Str) (hc : p c = true)
    (ht : t.takeWhile p = []) : pplusG p (c :: t) = [([c], t)] := by
  unfold pplusG
  rw [List.takeWhile_cons, if_pos hc, ht]
  rw [List.dropWhile_cons, if_pos hc, dropWhile_of_takeWhile_nil p t ht]
  rfl

/-- The first (greedy) candidate of a class-plus at a maximal run is the
whole run. -/
theorem pplusG_head_full (p : Char → Bool) (r t : Str) (hrne : r ≠ [])
    (htw : (r ++ t).takeWhile p = r) (hdw : (r ++ t).dropWhile p = t) :
    ∃ junk, pplusG p (r ++ t) = (r, t) :: junk := by
  obtain ⟨n, hn⟩ : ∃ n, r.length = n + 1 := by
    cases r with
    | nil => simp at hrne
    | cons a l => exact ⟨l.length, rfl⟩
  refine ⟨(List.range n).map (fun k => (r.take (n - k), r.drop (n - k) ++ t)), ?_⟩
  unfold pplusG
  rw [htw, hdw]
  show List.map (fun k => (List.take (r.length - k) r, List.drop (r.length - k) r ++ t))
      (List.range r.length) = _
  rw [hn, List.range_succ_eq_map, List.map_cons, List.map_map]
  simp only [Function.comp, Nat.succ_sub_succ, Nat.sub_zero]
  rw [← hn, List.take_length, List.drop_length]
  simp
  intro a ha
  simp only [inf_eq_min, hn]
  constructor
  · rw [show n + 1 - (a + 1) = n - a by omega]
    exact (min_eq_left (by omega)).symm
  · congr 1
    omega

/-- Chained head extraction through `flatMap`. -/
theorem flatMap_headq {α β : Type} {f : α → List β} {l : List α} {a : α}
    (h : l.head? = some a) {z : β} (hz : (f a).head? = some z) :
    (l.flatMap f).head? = some z := by
  cases l with
  | nil => simp at h
  | cons x xs =>
    simp only [List.head?_cons, Option.some.injEq] at h
    subst h
    rw [List.flatMap_cons]
    exact headq_append_some hz

/-- The inner optional group `(?:\\s+\\w+)?` of a capture. -/
def optQ : Pat (Option Str) :=
  poptG (pbind wsPlus fun sp => pbind wordPlus fun w2 => pret (sp ++ w2))

/-- The continuation of the comparison pattern after the first capture. -/
def vsTail (a : Str) : Pat (Str × Str) :=
  pbind wsPlus fun _ =>
    pbind vsConnector fun _ =>
      pbind wsPlus fun _ => pbind namePat fun b => pret (a, b)

/-- `namePat` unfolded through the optional group. -/
theorem namePat_eq (s : Str) :
    namePat s = (wordPlus s).flatMap
      (fun ar => (optQ ar.2).flatMap (fun o => pret (ar.1 ++ o.1.getD []) o.2)) := rfl

/-- `vsPat` unfolded into its first capture and its continuation. -/
theorem vsPat_eq (s : Str) :
    vsPat s = (namePat s).flatMap (fun ar => vsTail ar.1 ar.2) := rfl

set_option maxHeartbeats 1000000 in
/-- The comparison pattern on a message of the exact shape `X vs Y` with
single-word names: the backtracking head match captures `X` and `Y` and
consumes the whole message. -/
theorem vsPat_head_vs (X Y : Str) (hX : X ≠ []) (hY : Y ≠ [])
    (hXw : ∀ c ∈ X, jsIsWord c = true) (hYw : ∀ c ∈ Y, jsIsWord c = true) :
    (vsPat (X ++ (' ' :: 'v' :: 's' :: ' ' :: Y))).head? = some ((X, Y), []) := by
  have hsp : jsIsSpace ' ' = true := by decide
  have hwv : jsIsWord 'v' = true := by decide
  have hws : jsIsWord 's' = true := by decide
  have hnv : jsIsSpace 'v' = false := by decide
  have hnsp : jsIsWord ' ' = false := by decide
  have htY : Y.takeWhile jsIsSpace = [] := takeWhile_space_nil_of_word Y hYw
  -- word-plus at the head of the message
  have htw : (X ++ (' ' :: 'v' :: 's' :: ' ' :: Y)).takeWhile jsIsWord = X :=
    takeWhile_stop _ X ' ' _ hXw hnsp
  have hdw : (X ++ (' ' :: 'v' :: 's' :: ' ' :: Y)).dropWhile jsIsWord =
      ' ' :: 'v' :: 's' :: ' ' :: Y :=
    dropWhile_stop _ X ' ' _ hXw hnsp
  obtain ⟨junk1, hwp⟩ :=
    pplusG_head_full jsIsWord X (' ' :: 'v' :: 's' :: ' ' :: Y) hX htw hdw
  -- whitespace-plus runs inside the tail
  have hws0 : wsPlus (' ' :: 'v' :: 's' :: ' ' :: Y) =
      [([' '], 'v' :: 's' :: ' ' :: Y)] := by
    unfold wsPlus
    exact pplusG_single _ _ _ hsp (by rw [List.takeWhile_cons, if_neg (by simp [hnv])])
  have hws1 : wsPlus (' ' :: Y) = [([' '], Y)] := by
    unfold wsPlus
    exact pplusG_single _ _ _ hsp htY
  have hws2 : wsPlus ('s' :: ' ' :: Y) = [] := wsPlus_word 's' _ hws
  -- word-plus on the connector run
  have hwvs : wordPlus ('v' :: 's' :: ' ' :: Y) =
      [(['v', 's'], ' ' :: Y), (['v'], 's' :: ' ' :: Y)] := by
    unfold wordPlus pplusG
    have ht3 : ('v' :: 's' :: ' ' :: Y).takeWhile jsIsWord = ['v', 's'] := by
      rw [List.takeWhile_cons, if_pos hwv, List.takeWhile_cons, if_pos hws,
        List.takeWhile_cons, if_neg (by simp [hnsp])]
    have hd3 : ('v' :: 's' :: ' ' :: Y).dropWhile jsIsWord = ' ' :: Y := by
      rw [List.dropWhile_cons, if_pos hwv, List.dropWhile_cons, if_pos hws,
        List.dropWhile_cons, if_neg (by simp [hnsp])]
    rw [ht3, hd3]
    simp only [List.length_cons, List.length_nil]
    rw [show List.range (0 + 1 + 1) = [0, 1] by decide]
    simp
  -- namePat on Y has head (Y, [])
  have htwY : (Y ++ ([] : Str)).takeWhile jsIsWord = Y := by
    rw [List.append_nil]; exact takeWhile_all _ Y hYw
  have hdwY : (Y ++ ([] : Str)).dropWhile jsIsWord = [] := by
    rw [List.append_nil]; exact dropWhile_all _ Y hYw
  obtain ⟨junkY, hwpY⟩ := pplusG_head_full jsIsWord Y [] hY htwY hdwY
  rw [List.append_nil] at hwpY
  have hoptnil : optQ ([] : Str) = [(none, [])] := by
    unfold optQ poptG pbind
    rw [wsPlus_nil]
    rfl
  have hnameYhead : (namePat Y).head? = some (Y, []) := by
    have hwpY2 : wordPlus Y = (Y, []) :: junkY := hwpY
    rw [namePat_eq, hwpY2, List.flatMap_cons]
    apply headq_append_some
    rw [hoptnil, List.flatMap_cons]
    simp [pret]
  -- the connector literal at the `vs` run
  have hlit : plitCI "vs".toList ('v' :: 's' :: ' ' :: Y) = [(['v', 's'], ' ' :: Y)] := by
    unfold plitCI
    have h1 : List.take "vs".toList.length ('v' :: 's' :: ' ' :: Y) = ['v', 's'] := rfl
    have h2 : List.drop "vs".toList.length ('v' :: 's' :: ' ' :: Y) = ' ' :: Y := rfl
    rw [h1, h2, if_pos (by decide)]
  have hdot : plitCI ".".toList (' ' :: Y) = [] := by
    unfold plitCI
    have h1 : List.take ".".toList.length (' ' :: Y) = [' '] := rfl
    rw [h1, if_neg (by decide)]
  -- the optional group at the full-word capture
  have hq2 : optQ (' ' :: 'v' :: 's' :: ' ' :: Y) =
      [(some [' ', 'v', 's'], ' ' :: Y), (some [' ', 'v'], 's' :: ' ' :: Y),
       (none, ' ' :: 'v' :: 's' :: ' ' :: Y)] := by
    unfold optQ poptG pbind
    rw [hws0]
    simp [pret, hwvs]
  -- candidate `X vs` dies at the connector
  have hdead1 : ∀ a : Str, vsTail a (' ' :: Y) = [] := by
    intro a
    unfold vsTail pbind
    rw [hws1]
    have hconn := connector_then_ws_dead Y hYw
      (fun _ => pbind namePat fun b => pret (a, b))
    unfold pbind at hconn
    simpa using hconn
  -- candidate `X v` dies at the mandatory whitespace
  have hdead2 : ∀ a : Str, vsTail a ('s' :: ' ' :: Y) = [] := by
    intro a
    unfold vsTail pbind
    rw [hws2]
    rfl
  -- candidate `X` succeeds through the connector
  have hsucc : (vsTail X (' ' :: 'v' :: 's' :: ' ' :: Y)).head? = some ((X, Y), []) := by
    unfold vsTail pbind
    rw [hws0, List.flatMap_cons, List.flatMap_nil, List.append_nil]
    have hconnhead :
        (vsConnector ('v' :: 's' :: ' ' :: Y)).head? = some ((), ' ' :: Y) := by
      unfold vsConnector palt
      apply headq_append_some
      unfold pbind
      rw [hlit, List.flatMap_cons, List.flatMap_nil, List.append_nil]
      have hopt : poptG (plitCI ".".toList) (' ' :: Y) = [(none, ' ' :: Y)] := by
        unfold poptG
        rw [hdot]
        rfl
      beta_reduce
      rw [hopt]
      rfl
    apply flatMap_headq hconnhead
    beta_reduce
    rw [hws1, List.flatMap_cons, List.flatMap_nil, List.append_nil]
    apply flatMap_headq hnameYhead
    rfl
  -- assemble
  have hname3 : namePat (X ++ (' ' :: 'v' :: 's' :: ' ' :: Y)) =
      [(X ++ [' ', 'v', 's'], ' ' :: Y), (X ++ [' ', 'v'], 's' :: ' ' :: Y),
       (X, ' ' :: 'v' :: 's' :: ' ' :: Y)] ++
      junk1.flatMap
        (fun ar => (optQ ar.2).flatMap (fun o => pret (ar.1 ++ o.1.getD []) o.2)) := by
    have hwp2 : wordPlus (X ++ (' ' :: 'v' :: 's' :: ' ' :: Y)) =
        (X, ' ' :: 'v' :: 's' :: ' ' :: Y) :: junk1 := hwp
    rw [namePat_eq, hwp2, List.flatMap_cons]
    rw [hq2]
    simp [pret]
  rw [vsPat_eq, hname3, List.flatMap_append]
  apply headq_append_some
  rw [List.flatMap_cons, List.flatMap_cons, List.flatMap_cons, List.flatMap_nil]
  simp only [hdead1, hdead2, List.nil_append, List.append_nil]
  exact hsucc

/-- After a successful first capture, a continuation beginning with a word
character dies at the mandatory whitespace before the connector. -/
theorem vsTail_dead_word (a : Str) (c : Char) (t : Str) (hc : jsIsWord c = true) :
    vsTail a (c :: t) = [] := by
  unfold vsTail pbind
  rw [wsPlus_word c t hc]
  rfl

/-- After a capture, one space followed by an all-word string dies at the
whitespace that must follow the connector. -/
theorem vsTail_dead_space_word (a t : Str) (htw : ∀ c ∈ t, jsIsWord c = true) :
    vsTail a (' ' :: t) = [] := by
  unfold vsTail pbind
  have h2 : wsPlus (' ' :: t) = [([' '], t)] := by
    unfold wsPlus
    exact pplusG_single _ _ _ (by decide) (takeWhile_space_nil_of_word t htw)
  rw [h2]
  have hconn := connector_then_ws_dead t htw (fun _ => pbind namePat fun b => pret (a, b))
  unfold pbind at hconn
  simpa using hconn

/-- The first capture candidate of `namePat` on a nonempty all-word string
is the whole string with nothing left over. -/
theorem namePat_head_word (Y : Str) (hY : Y ≠ []) (hYw : ∀ c ∈ Y, jsIsWord c = true) :
    (namePat Y).head? = some (Y, []) := by
  have htwY : (Y ++ ([] : Str)).takeWhile jsIsWord = Y := by
    rw [List.append_nil]; exact takeWhile_all _ Y hYw
  have hdwY : (Y ++ ([] : Str)).dropWhile jsIsWord = [] := by
    rw [List.append_nil]; exact dropWhile_all _ Y hYw
  obtain ⟨junkY, hwpY⟩ := pplusG_head_full jsIsWord Y [] hY htwY hdwY
  rw [List.append_nil] at hwpY
  have hoptnil : optQ ([] : Str) = [(none, [])] := by
    unfold optQ poptG pbind
    rw [wsPlus_nil]
    rfl
  have hwpY2 : wordPlus Y = (Y, []) :: junkY := hwpY
  rw [namePat_eq, hwpY2, List.flatMap_cons]
  apply headq_append_some
  rw [hoptnil, List.flatMap_cons]
  simp [pret]

set_option maxHeartbeats 1000000 in
/-- The comparison pattern on a message of the exact shape `X versus Y`
with single-word names: the backtracking head match captures `X` and `Y`
and consumes the whole message. -/
theorem vsPat_head_versus (X Y : Str) (hX : X ≠ []) (hY : Y ≠ [])
    (hXw : ∀ c ∈ X, jsIsWord c = true) (hYw : ∀ c ∈ Y, jsIsWord c = true) :
    (vsPat (X ++ (' ' :: 'v' :: 'e' :: 'r' :: 's' :: 'u' :: 's' :: ' ' :: Y))).head? =
      some ((X, Y), []) := by
  have hsp : jsIsSpace ' ' = true := by decide
  have hnsp : jsIsWord ' ' = false := by decide
  have htY : Y.takeWhile jsIsSpace = [] := takeWhile_space_nil_of_word Y hYw
  have htw : (X ++ (' ' :: 'v' :: 'e' :: 'r' :: 's' :: 'u' :: 's' :: ' ' :: Y)).takeWhile
      jsIsWord = X :=
    takeWhile_stop _ X ' ' _ hXw hnsp
  have hdw : (X ++ (' ' :: 'v' :: 'e' :: 'r' :: 's' :: 'u' :: 's' :: ' ' :: Y)).dropWhile
      jsIsWord = ' ' :: 'v' :: 'e' :: 'r' :: 's' :: 'u' :: 's' :: ' ' :: Y :=
    dropWhile_stop _ X ' ' _ hXw hnsp
  obtain ⟨junk1, hwp⟩ :=
    pplusG_head_full jsIsWord X (' ' :: 'v' :: 'e' :: 'r' :: 's' :: 'u' :: 's' :: ' ' :: Y)
      hX htw hdw
  have hws0 : wsPlus (' ' :: 'v' :: 'e' :: 'r' :: 's' :: 'u' :: 's' :: ' ' :: Y) =
      [([' '], 'v' :: 'e' :: 'r' :: 's' :: 'u' :: 's' :: ' ' :: Y)] := by
    unfold wsPlus
    exact pplusG_single _ _ _ hsp (by rw [List.takeWhile_cons, if_neg (by decide)])
  have hws1 : wsPlus (' ' :: Y) = [([' '], Y)] := by
    unfold wsPlus
    exact pplusG_single _ _ _ hsp htY
  have hwrun : wordPlus ('v' :: 'e' :: 'r' :: 's' :: 'u' :: 's' :: ' ' :: Y) =
      [(['v', 'e', 'r', 's', 'u', 's'], ' ' :: Y),
       (['v', 'e', 'r', 's', 'u'], 's' :: ' ' :: Y),
       (['v', 'e', 'r', 's'], 'u' :: 's' :: ' ' :: Y),
       (['v', 'e', 'r'], 's' :: 'u' :: 's' :: ' ' :: Y),
       (['v', 'e'], 'r' :: 's' :: 'u' :: 's' :: ' ' :: Y),
       (['v'], 'e' :: 'r' :: 's' :: 'u' :: 's' :: ' ' :: Y)] := by
    unfold wordPlus pplusG
    have ht6 : ('v' :: 'e' :: 'r' :: 's' :: 'u' :: 's' :: ' ' :: Y).takeWhile jsIsWord =
        ['v', 'e', 'r', 's', 'u', 's'] := by
      rw [List.takeWhile_cons, if_pos (by decide), List.takeWhile_cons, if_pos (by decide),
        List.takeWhile_cons, if_pos (by decide), List.takeWhile_cons, if_pos (by decide),
        List.takeWhile_cons, if_pos (by decide), List.takeWhile_cons, if_pos (by decide),
        List.takeWhile_cons, if_neg (by decide)]
    have hd6x : ('v' :: 'e' :: 'r' :: 's' :: 'u' :: 's' :: ' ' :: Y).dropWhile jsIsWord =
        ' ' :: Y := by
      rw [List.dropWhile_cons, if_pos (by decide), List.dropWhile_cons, if_pos (by decide),
        List.dropWhile_cons, if_pos (by decide), List.dropWhile_cons, if_pos (by decide),
        List.dropWhile_cons, if_pos (by decide), List.dropWhile_cons, if_pos (by decide),
        List.dropWhile_cons, if_neg (by decide)]
    rw [ht6, hd6x]
    simp only [List.length_cons, List.length_nil]
    rw [show List.range (0 + 1 + 1 + 1 + 1 + 1 + 1) = [0, 1, 2, 3, 4, 5] by decide]
    simp
  have hnameYhead : (namePat Y).head? = some (Y, []) := namePat_head_word Y hY hYw
  have hvs2 : plitCI "vs".toList ('v' :: 'e' :: 'r' :: 's' :: 'u' :: 's' :: ' ' :: Y) = [] := by
    unfold plitCI
    have h1 : List.take "vs".toList.length ('v' :: 'e' :: 'r' :: 's' :: 'u' :: 's' :: ' ' :: Y) =
        ['v', 'e'] := rfl
    rw [h1, if_neg (by decide)]
  have hversuslit :
      plitCI "versus".toList ('v' :: 'e' :: 'r' :: 's' :: 'u' :: 's' :: ' ' :: Y) =
        [(['v', 'e', 'r', 's', 'u', 's'], ' ' :: Y)] := by
    unfold plitCI
    have h1 : List.take "versus".toList.length
        ('v' :: 'e' :: 'r' :: 's' :: 'u' :: 's' :: ' ' :: Y) =
        ['v', 'e', 'r', 's', 'u', 's'] := rfl
    have h2 : List.drop "versus".toList.length
        ('v' :: 'e' :: 'r' :: 's' :: 'u' :: 's' :: ' ' :: Y) = ' ' :: Y := rfl
    rw [h1, h2, if_pos (by decide)]
  have hq6 : optQ (' ' :: 'v' :: 'e' :: 'r' :: 's' :: 'u' :: 's' :: ' ' :: Y) =
      [(some [' ', 'v', 'e', 'r', 's', 'u', 's'], ' ' :: Y),
       (some [' ', 'v', 'e', 'r', 's', 'u'], 's' :: ' ' :: Y),
       (some [' ', 'v', 'e', 'r', 's'], 'u' :: 's' :: ' ' :: Y),
       (some [' ', 'v', 'e', 'r'], 's' :: 'u' :: 's' :: ' ' :: Y),
       (some [' ', 'v', 'e'], 'r' :: 's' :: 'u' :: 's' :: ' ' :: Y),
       (some [' ', 'v'], 'e' :: 'r' :: 's' :: 'u' :: 's' :: ' ' :: Y),
       (none, ' ' :: 'v' :: 'e' :: 'r' :: 's' :: 'u' :: 's' :: ' ' :: Y)] := by
    unfold optQ poptG pbind
    rw [hws0]
    simp [pret, hwrun]
  have hd1 : ∀ a : Str, vsTail a (' ' :: Y) = [] := fun a => vsTail_dead_space_word a Y hYw
  have hd2 : ∀ a : Str, vsTail a ('s' :: ' ' :: Y) = [] := fun a =>
    vsTail_dead_word a 's' _ (by decide)
  have hd3 : ∀ a : Str, vsTail a ('u' :: 's' :: ' ' :: Y) = [] := fun a =>
    vsTail_dead_word a 'u' _ (by decide)
  have hd4 : ∀ a : Str, vsTail a ('s' :: 'u' :: 's' :: ' ' :: Y) = [] := fun a =>
    vsTail_dead_word a 's' _ (by decide)
  have hd5 : ∀ a : Str, vsTail a ('r' :: 's' :: 'u' :: 's' :: ' ' :: Y) = [] := fun a =>
    vsTail_dead_word a 'r' _ (by decide)
  have hd6 : ∀ a : Str, vsTail a ('e' :: 'r' :: 's' :: 'u' :: 's' :: ' ' :: Y) = [] := fun a =>
    vsTail_dead_word a 'e' _ (by decide)
  have hb1 : pbind (plitCI "vs".toList)
      (fun _ => pbind (poptG (plitCI ".".toList)) fun _ => pret ())
      ('v' :: 'e' :: 'r' :: 's' :: 'u' :: 's' :: ' ' :: Y) = [] := by
    unfold pbind
    rw [hvs2]
    rfl
  have hsucc2 : (vsTail X (' ' :: 'v' :: 'e' :: 'r' :: 's' :: 'u' :: 's' :: ' ' :: Y)).head? =
      some ((X, Y), []) := by
    unfold vsTail pbind
    rw [hws0, List.flatMap_cons, List.flatMap_nil, List.append_nil]
    have hconnhead :
        (vsConnector ('v' :: 'e' :: 'r' :: 's' :: 'u' :: 's' :: ' ' :: Y)).head? =
          some ((), ' ' :: Y) := by
      unfold vsConnector palt
      rw [hb1, List.nil_append]
      apply headq_append_some
      unfold pbind
      rw [hversuslit, List.flatMap_cons, List.flatMap_nil, List.append_nil]
      rfl
    apply flatMap_headq hconnhead
    beta_reduce
    rw [hws1, List.flatMap_cons, List.flatMap_nil, List.append_nil]
    apply flatMap_headq hnameYhead
    rfl
  have hname7 : namePat (X ++ (' ' :: 'v' :: 'e' :: 'r' :: 's' :: 'u' :: 's' :: ' ' :: Y)) =
      [(X ++ [' ', 'v', 'e', 'r', 's', 'u', 's'], ' ' :: Y),
       (X ++ [' ', 'v', 'e', 'r', 's', 'u'], 's' :: ' ' :: Y),
       (X ++ [' ', 'v', 'e', 'r', 's'], 'u' :: 's' :: ' ' :: Y),
       (X ++ [' ', 'v', 'e', 'r'], 's' :: 'u' :: 's' :: ' ' :: Y),
       (X ++ [' ', 'v', 'e'], 'r' :: 's' :: 'u' :: 's' :: ' ' :: Y),
       (X ++ [' ', 'v'], 'e' :: 'r' :: 's' :: 'u' :: 's' :: ' ' :: Y),
       (X, ' ' :: 'v' :: 'e' :: 'r' :: 's' :: 'u' :: 's' :: ' ' :: Y)] ++
      junk1.flatMap
        (fun ar => (optQ ar.2).flatMap (fun o => pret (ar.1 ++ o.1.getD []) o.2)) := by
    have hwp2 : wordPlus (X ++ (' ' :: 'v' :: 'e' :: 'r' :: 's' :: 'u' :: 's' :: ' ' :: Y)) =
        (X, ' ' :: 'v' :: 'e' :: 'r' :: 's' :: 'u' :: 's' :: ' ' :: Y) :: junk1 := hwp
    rw [namePat_eq, hwp2, List.flatMap_cons]
    rw [hq6]
    simp [pret]
  rw [vsPat_eq, hname7, List.flatMap_append]
  apply headq_append_some
  rw [List.flatMap_cons, List.flatMap_cons, List.flatMap_cons, List.flatMap_cons,
    List.flatMap_cons, List.flatMap_cons, List.flatMap_cons, List.flatMap_nil]
  simp only [hd1, hd2, hd3, hd4, hd5, hd6, List.nil_append, List.append_nil]
  exact hsucc2

/-- `firstMatch` at a position where the pattern's head alternative fires:
nothing is skipped. -/
theorem firstMatch_of_head {α : Type} (p : Pat α) (s : Str) (ar : α × Str)
    (h : (p s).head? = some ar) : firstMatch p s = some ([], ar.1, ar.2) := by
  cases s with
  | nil =>
    unfold firstMatch
    rw [h]
    rfl
  | cons c rest =>
    unfold firstMatch
    rw [h]

/-- `matchAllAux` on an empty input is empty when the pattern rejects the
empty string. -/
theorem matchAllAux_nil {α : Type} (p : Pat α) (hnil : p [] = []) (fuel : Nat) :
    matchAllAux p [] fuel = [] := by
  cases fuel with
  | zero => rfl
  | succ n =>
    unfold matchAllAux firstMatch
    rw [hnil]
    rfl

/-- A head-anchored match consuming the whole nonempty input is the single
match `matchAll` reports. -/
theorem matchAll_single {α : Type} (p : Pat α) (c : Char) (t : Str) (a : α)
    (h : (p (c :: t)).head? = some (a, [])) (hnil : p [] = []) :
    matchAll p (c :: t) = [a] := by
  have hfm : firstMatch p (c :: t) = some ([], a, []) := by
    have h0 := firstMatch_of_head p (c :: t) (a, []) h
    simpa using h0
  unfold matchAll
  show matchAllAux p (c :: t) (t.length + 1 + 1) = [a]
  unfold matchAllAux
  rw [hfm]
  show (if ([] : Str).length < (c :: t).length then a :: matchAllAux p [] (t.length + 1)
      else a :: matchAllAux p t (t.length + 1)) = [a]
  rw [if_pos (by simp), matchAllAux_nil p hnil]

/-- `dropWhile` for the space class keeps an all-word string whole. -/
theorem dropWhile_space_word (s : Str) (h : ∀ c ∈ s, jsIsWord c = true) :
    s.dropWhile jsIsSpace = s := by
  cases s with
  | nil => rfl
  | cons c t =>
    rw [List.dropWhile_cons, if_neg]
    simp [word_not_space c (h c (by simp))]

/-- `trim` is the identity on all-word strings. -/
theorem jsTrim_word (s : Str) (h : ∀ c ∈ s, jsIsWord c = true) : jsTrim s = s := by
  unfold jsTrim
  rw [dropWhile_space_word s h,
    dropWhile_space_word s.reverse (fun c hc => h c (List.mem_reverse.mp hc))]
  exact List.reverse_reverse s

/-- The known-school scan only ever appends to the collected candidates. -/
theorem pushKnownSchools_append (lm : Str) :
    ∀ (ks schools : List Str), ∃ extra, pushKnownSchools lm schools ks = schools ++ extra
  | [], schools => ⟨[], by simp [pushKnownSchools]⟩
  | k :: ks, schools => by
    unfold pushKnownSchools
    by_cases hc : (includesB lm k && !(schools.any fun s => includesB (lowerStr s) k)) = true
    · rw [if_pos hc]
      obtain ⟨e, he⟩ := pushKnownSchools_append lm ks (schools ++ [k])
      exact ⟨[k] ++ e, by rw [he, List.append_assoc]⟩
    · rw [if_neg hc]
      exact pushKnownSchools_append lm ks schools

/-- Membership in the `Set` insertion pass: exactly the input elements not
already seen. -/
theorem mem_jsSetDedupGo (a : Str) :
    ∀ (l seen : List Str), a ∈ jsSetDedupGo seen l ↔ (a ∈ l ∧ a ∉ seen)
  | [], seen => by simp [jsSetDedupGo]
  | x :: xs, seen => by
    unfold jsSetDedupGo
    by_cases hx : x ∈ seen
    · rw [if_pos hx, mem_jsSetDedupGo a xs seen]
      constructor
      · exact fun h => ⟨List.mem_cons_of_mem x h.1, h.2⟩
      · rintro ⟨h1, h2⟩
        rcases List.mem_cons.mp h1 with rfl | h1
        · exact absurd hx h2
        · exact ⟨h1, h2⟩
    · rw [if_neg hx]
      rw [List.mem_cons, mem_jsSetDedupGo a xs (seen ++ [x]), List.mem_cons]
      simp only [List.mem_append, List.mem_singleton]
      constructor
      · rintro (rfl | ⟨h1, h2⟩)
        · exact ⟨Or.inl rfl, hx⟩
        · exact ⟨Or.inr h1, fun hs => h2 (Or.inl hs)⟩
      · rintro ⟨h1, h2⟩
        rcases h1 with rfl | h1
        · exact Or.inl rfl
        · by_cases hax : a = x
          · exact Or.inl hax
          · exact Or.inr ⟨h1, fun hs => hs.elim h2 hax⟩

/-- `[...new Set(xs)]` preserves membership. -/
theorem mem_jsSetDedup (a : Str) (l : List Str) : a ∈ jsSetDedup l ↔ a ∈ l := by
  unfold jsSetDedup
  rw [mem_jsSetDedupGo]
  simp

/-- The `Set` insertion pass never emits a duplicate. -/
theorem jsSetDedupGo_nodup : ∀ (l seen : List Str), (jsSetDedupGo seen l).Nodup
  | [], _ => List.nodup_nil
  | x :: xs, seen => by
    unfold jsSetDedupGo
    by_cases hx : x ∈ seen
    · rw [if_pos hx]
      exact jsSetDedupGo_nodup xs seen
    · rw [if_neg hx]
      refine List.nodup_cons.mpr ⟨?_, jsSetDedupGo_nodup xs (seen ++ [x])⟩
      intro hmem
      exact ((mem_jsSetDedupGo x xs (seen ++ [x])).mp hmem).2 (by simp)

/-- `[...new Set(xs)]` yields a duplicate-free list. -/
theorem jsSetDedup_nodup (l : List Str) : (jsSetDedup l).Nodup :=
  jsSetDedupGo_nodup l []

/-- When the comparison pattern is the only matcher that fires and its
single match captures `X` and `Y`, both reach the resolver's output. -/
theorem extract_contains_of_vs_match (X Y m : Str)
    (hXw : ∀ c ∈ X, jsIsWord c = true) (hYw : ∀ c ∈ Y, jsIsWord c = true)
    (hm : matchAll vsPat m = [(X, Y)])
    (h1 : matchAll uniOfPat m = []) (h2 : matchAll uniPat m = []) :
    X ∈ extractSchoolNames m ∧ Y ∈ extractSchoolNames m := by
  have hout : extractSchoolNames m =
      jsSetDedup (pushKnownSchools (lowerStr m) [X, Y] knownSchools) := by
    unfold extractSchoolNames
    rw [h1, h2, hm]
    simp [jsTrim_word X hXw, jsTrim_word Y hYw]
  obtain ⟨extra, hpush⟩ := pushKnownSchools_append (lowerStr m) knownSchools [X, Y]
  rw [hout, hpush]
  constructor <;> simp [mem_jsSetDedup]

/-- C3 counterexample: the message `a Yale vs Brown` contains the text
`Yale vs Brown`, yet the resolver's output is `a Yale` and `Brown` — the
greedy two-word capture of the comparison pattern swallows the preceding
word, and `Yale` is absent from the output even up to case. -/
theorem vs_extraction_counterexample :
    includesB "a Yale vs Brown".toList "Yale vs Brown".toList = true ∧
    extractSchoolNames "a Yale vs Brown".toList = ["a Yale".toList, "Brown".toList] ∧
    (∀ e ∈ extractSchoolNames "a Yale vs Brown".toList, lowerStr e ≠ "yale".toList) := by
  have h1 : matchAll uniOfPat "a Yale vs Brown".toList = [] := by decide
  have h2 : matchAll uniPat "a Yale vs Brown".toList = [] := by decide
  have h3 : matchAll vsPat "a Yale vs Brown".toList =
      [("a Yale".toList, "Brown".toList)] := by decide
  have hout : extractSchoolNames "a Yale vs Brown".toList =
      ["a Yale".toList, "Brown".toList] := by
    unfold extractSchoolNames
    rw [h1, h2, h3]
    decide
  refine ⟨by decide, hout, ?_⟩
  rw [hout]
  decide

/-- C3 (amended): for a message of the exact form `X vs Y` or `X versus Y`
with nonempty single-word names `X` and `Y`, provided neither of the two
university patterns fires on the message, the resolver's candidate list
contains both `X` and `Y` verbatim. -/
theorem vs_extraction_amended (X Y : Str) (hX : X ≠ []) (hY : Y ≠ [])
    (hXw : ∀ c ∈ X, jsIsWord c = true) (hYw : ∀ c ∈ Y, jsIsWord c = true)
    (h1 : matchAll uniOfPat (X ++ (' ' :: 'v' :: 's' :: ' ' :: Y)) = [])
    (h2 : matchAll uniPat (X ++ (' ' :: 'v' :: 's' :: ' ' :: Y)) = [])
    (h3 : matchAll uniOfPat
      (X ++ (' ' :: 'v' :: 'e' :: 'r' :: 's' :: 'u' :: 's' :: ' ' :: Y)) = [])
    (h4 : matchAll uniPat
      (X ++ (' ' :: 'v' :: 'e' :: 'r' :: 's' :: 'u' :: 's' :: ' ' :: Y)) = []) :
    (X ∈ extractSchoolNames (X ++ (' ' :: 'v' :: 's' :: ' ' :: Y)) ∧
     Y ∈ extractSchoolNames (X ++ (' ' :: 'v' :: 's' :: ' ' :: Y))) ∧
    (X ∈ extractSchoolNames (X ++ (' ' :: 'v' :: 'e' :: 'r' :: 's' :: 'u' :: 's' :: ' ' :: Y)) ∧
     Y ∈ extractSchoolNames
       (X ++ (' ' :: 'v' :: 'e' :: 'r' :: 's' :: 'u' :: 's' :: ' ' :: Y))) := by
  constructor
  · refine extract_contains_of_vs_match X Y _ hXw hYw ?_ h1 h2
    cases X with
    | nil => exact absurd rfl hX
    | cons c t =>
      have h := vsPat_head_vs (c :: t) Y hX hY hXw hYw
      rw [List.cons_append] at h
      rw [List.cons_append]
      exact matchAll_single vsPat c _ _ h rfl
  · refine extract_contains_of_vs_match X Y _ hXw hYw ?_ h3 h4
    cases X with
    | nil => exact absurd rfl hX
    | cons c t =>
      have h := vsPat_head_versus (c :: t) Y hX hY hXw hYw
      rw [List.cons_append] at h
      rw [List.cons_append]
      exact matchAll_single vsPat c _ _ h rfl

/-- Witness for the amended comparison extraction at the concrete messages
`aa vs bb` and `aa versus bb`. -/
theorem vs_extraction_amended_witness :
    ("aa".toList ∈ extractSchoolNames
        ("aa".toList ++ (' ' :: 'v' :: 's' :: ' ' :: "bb".toList)) ∧
     "bb".toList ∈ extractSchoolNames
        ("aa".toList ++ (' ' :: 'v' :: 's' :: ' ' :: "bb".toList))) ∧
    ("aa".toList ∈ extractSchoolNames
        ("aa".toList ++ (' ' :: 'v' :: 'e' :: 'r' :: 's' :: 'u' :: 's' :: ' ' :: "bb".toList)) ∧
     "bb".toList ∈ extractSchoolNames
        ("aa".toList ++
          (' ' :: 'v' :: 'e' :: 'r' :: 's' :: 'u' :: 's' :: ' ' :: "bb".toList))) :=
  vs_extraction_amended "aa".toList "bb".toList (by decide) (by decide) (by decide) (by decide)
    (by decide) (by decide) (by decide) (by decide)

/-- The `Set` insertion pass keeps the surviving elements in input order. -/
theorem jsSetDedupGo_sublist : ∀ (l seen : List Str), List.Sublist (jsSetDedupGo seen l) l
  | [], _ => List.Sublist.refl []
  | x :: xs, seen => by
    unfold jsSetDedupGo
    by_cases hx : x ∈ seen
    · rw [if_pos hx]
      exact (jsSetDedupGo_sublist xs seen).cons x
    · rw [if_neg hx]
      exact (jsSetDedupGo_sublist xs (seen ++ [x])).cons₂ x

/-- `[...new Set(xs)]` is an order-preserving sublist of its input. -/
theorem jsSetDedup_sublist (l : List Str) : List.Sublist (jsSetDedup l) l :=
  jsSetDedupGo_sublist l []

/-- C9 counterexample: on `Yale vs yale, aa vs bb, cc vs dd` the resolver
returns six candidates, including the case-variant pair `Yale`/`yale`: its
output is neither case-insensitively deduplicated nor capped at three
entries (the 3-cap exists only in the handler's fetch loop). -/
theorem resolver_output_counterexample :
    extractSchoolNames "Yale vs yale, aa vs bb, cc vs dd".toList =
      ["Yale".toList, "yale".toList, "aa".toList, "bb".toList,
       "cc".toList, "dd".toList] ∧
    3 < (extractSchoolNames "Yale vs yale, aa vs bb, cc vs dd".toList).length ∧
    lowerStr "Yale".toList = lowerStr "yale".toList ∧ "Yale".toList ≠ "yale".toList := by
  have h1 : matchAll uniOfPat "Yale vs yale, aa vs bb, cc vs dd".toList = [] := by decide
  have h2 : matchAll uniPat "Yale vs yale, aa vs bb, cc vs dd".toList = [] := by decide
  have h3 : matchAll vsPat "Yale vs yale, aa vs bb, cc vs dd".toList =
      [("Yale".toList, "yale".toList), ("aa".toList, "bb".toList),
       ("cc".toList, "dd".toList)] := by decide
  have hout : extractSchoolNames "Yale vs yale, aa vs bb, cc vs dd".toList =
      ["Yale".toList, "yale".toList, "aa".toList, "bb".toList,
       "cc".toList, "dd".toList] := by
    unfold extractSchoolNames
    rw [h1, h2, h3]
    decide
  refine ⟨hout, ?_, by decide, by decide⟩
  rw [hout]
  decide

/-- C9 (amended): the resolver's output is distinct (case-sensitively, via
the `Set` pass, which also preserves first-seen order and membership), and
the 3-entry cap holds for the handler's fetch loop over the candidates,
not for the resolver's own list. -/
theorem resolver_output_amended (message : Str) :
    (extractSchoolNames message).Nodup ∧
    (∀ (store : List CDSRecord) (schools : List Str),
        (buildCdsMap store schools).length ≤ 3) ∧
    (∀ l : List Str, List.Sublist (jsSetDedup l) l ∧ ∀ a, a ∈ jsSetDedup l ↔ a ∈ l) := by
  refine ⟨?_, ?_, ?_⟩
  · unfold extractSchoolNames
    exact jsSetDedup_nodup _
  · intro store schools
    unfold buildCdsMap
    have h1 : ((schools.take 3).filterMap
        (fun school => (fetchCollegeCDS store school).map (fun d => (school, d)))).length ≤
        (schools.take 3).length := List.length_filterMap_le _ _
    have h2 : (schools.take 3).length ≤ 3 := by
      rw [List.length_take]
      exact min_le_left _ _
    exact le_trans h1 h2
  · intro l
    exact ⟨jsSetDedup_sublist l, fun a => mem_jsSetDedup a l⟩

/-- A stored record for Brown University, the matched institution of the
one-match comparison scenario. -/
def brownRec : CDSRecord :=
  { institution := some "Brown University".toList
    common_data_set := none
    a1_address := none
    b1_enrollment := none
    b22_retention_rate := none
    c1_applications := none
    c9_profile := none
    g1_costs := none
    h2_freshmen_aid := none
    i2_student_faculty_ratio := none }

set_option maxRecDepth 100000 in
/-- C4 counterexample: for `Compare Fooville University vs Brown` against a
store holding only Brown, exactly one candidate resolves to a record, the
composed instruction carries Brown's digest block, and NO disclaimer
clause is appended — the disclaimer branch runs only when no candidate at
all has data. -/
theorem one_match_prompt_counterexample :
    buildCdsMap [brownRec]
      (handlerSchools "Compare Fooville University vs Brown".toList none) =
      [("Brown".toList, brownRec)] ∧
    includesB (chatSystemPrompt [brownRec] "Compare Fooville University vs Brown".toList none)
      "--- Brown University".toList = true ∧
    includesB (chatSystemPrompt [brownRec] "Compare Fooville University vs Brown".toList none)
      noDataNote = false := by
  have h1 : matchAll uniOfPat "Compare Fooville University vs Brown".toList = [] := by decide
  have h2 : matchAll uniPat "Compare Fooville University vs Brown".toList = [] := by decide
  have h3 : matchAll vsPat "Compare Fooville University vs Brown".toList =
      [("Fooville University".toList, "Brown".toList)] := by decide
  have hs : extractSchoolNames "Compare Fooville University vs Brown".toList =
      ["Fooville University".toList, "Brown".toList] := by
    unfold extractSchoolNames
    rw [h1, h2, h3]
    decide
  have hhs : handlerSchools "Compare Fooville University vs Brown".toList none =
      extractSchoolNames "Compare Fooville University vs Brown".toList := rfl
  have hp1 : chatSystemPrompt [brownRec] "Compare Fooville University vs Brown".toList none =
      composeSystemPrompt none
        (buildCdsMap [brownRec] ["Fooville University".toList, "Brown".toList])
        ["Fooville University".toList, "Brown".toList]
        (isAskingAboutScholarships "Compare Fooville University vs Brown".toList) [] := by
    unfold chatSystemPrompt
    rw [hhs, hs]
  refine ⟨?_, ?_, ?_⟩
  · rw [hhs, hs]
    decide
  · rw [hp1]
    decide
  · rw [hp1]
    decide

set_option maxRecDepth 100000 in
/-- C4 (amended): in the one-match comparison scenario the resolver still
returns both names, the fetch for the unknown school yields no record, the
composed instruction includes the matched school's digest block and omits
any block for the unmatched school, and the disclaimer clause is appended
exactly when no mentioned school has data (empty store), never alongside a
digest. -/
theorem one_match_prompt_amended :
    extractSchoolNames "Compare Fooville University vs Brown".toList =
      ["Fooville University".toList, "Brown".toList] ∧
    fetchCollegeCDS [brownRec] "Fooville University".toList = none ∧
    includesB (chatSystemPrompt [brownRec] "Compare Fooville University vs Brown".toList none)
      "--- Brown University".toList = true ∧
    includesB (chatSystemPrompt [brownRec] "Compare Fooville University vs Brown".toList none)
      "Fooville".toList = false ∧
    includesB (chatSystemPrompt [brownRec] "Compare Fooville University vs Brown".toList none)
      noDataNote = false ∧
    includesB (chatSystemPrompt [] "Compare Fooville University vs Brown".toList none)
      noDataNote = true := by
  have h1 : matchAll uniOfPat "Compare Fooville University vs Brown".toList = [] := by decide
  have h2 : matchAll uniPat "Compare Fooville University vs Brown".toList = [] := by decide
  have h3 : matchAll vsPat "Compare Fooville University vs Brown".toList =
      [("Fooville University".toList, "Brown".toList)] := by decide
  have hs : extractSchoolNames "Compare Fooville University vs Brown".toList =
      ["Fooville University".toList, "Brown".toList] := by
    unfold extractSchoolNames
    rw [h1, h2, h3]
    decide
  have hhs : handlerSchools "Compare Fooville University vs Brown".toList none =
      extractSchoolNames "Compare Fooville University vs Brown".toList := rfl
  have hp1 : chatSystemPrompt [brownRec] "Compare Fooville University vs Brown".toList none =
      composeSystemPrompt none
        (buildCdsMap [brownRec] ["Fooville University".toList, "Brown".toList])
        ["Fooville University".toList, "Brown".toList]
        (isAskingAboutScholarships "Compare Fooville University vs Brown".toList) [] := by
    unfold chatSystemPrompt
    rw [hhs, hs]
  have hp2 : chatSystemPrompt [] "Compare Fooville University vs Brown".toList none =
      composeSystemPrompt none
        (buildCdsMap [] ["Fooville University".toList, "Brown".toList])
        ["Fooville University".toList, "Brown".toList]
        (isAskingAboutScholarships "Compare Fooville University vs Brown".toList) [] := by
    unfold chatSystemPrompt
    rw [hhs, hs]
  refine ⟨hs, by decide, ?_, ?_, ?_, ?_⟩
  · rw [hp1]
    decide
  · rw [hp1]
    decide
  · rw [hp1]
    decide
  · rw [hp2]
    decide

/-- `split` never returns an empty piece list. -/
theorem jsSplitChar_ne_nil (sep : Char) : ∀ s : Str, jsSplitChar sep s ≠ []
  | [] => by simp [jsSplitChar]
  | c :: rest => by
    unfold jsSplitChar
    by_cases hc : c = sep
    · rw [if_pos hc]
      simp
    · rw [if_neg hc]
      cases hx : jsSplitChar sep rest with
      | nil => simp
      | cons p ps => simp

/-- `join` is a left inverse of `split`. -/
theorem joinChar_splitChar (sep : Char) : ∀ s : Str, joinChar sep (jsSplitChar sep s) = s
  | [] => rfl
  | c :: rest => by
    unfold jsSplitChar
    by_cases hc : c = sep
    · rw [if_pos hc]
      cases hx : jsSplitChar sep rest with
      | nil => exact absurd hx (jsSplitChar_ne_nil sep rest)
      | cons p ps =>
        have ih := joinChar_splitChar sep rest
        rw [hx] at ih
        subst hc
        show [] ++ c :: joinChar c (p :: ps) = c :: rest
        rw [List.nil_append, ih]
    · rw [if_neg hc]
      have ih := joinChar_splitChar sep rest
      cases hx : jsSplitChar sep rest with
      | nil => exact absurd hx (jsSplitChar_ne_nil sep rest)
      | cons p ps =>
        rw [hx] at ih
        cases ps with
        | nil =>
          show c :: p = c :: rest
          rw [show joinChar sep [p] = p from rfl] at ih
          rw [ih]
        | cons q qs =>
          show (c :: p) ++ sep :: joinChar sep (q :: qs) = c :: rest
          rw [show joinChar sep (p :: q :: qs) = p ++ sep :: joinChar sep (q :: qs) from rfl] at ih
          rw [List.cons_append, ih]

/-- Characters of a piece come from the split input. -/
theorem mem_of_mem_splitChar (sep : Char) (a : Char) :
    ∀ (s : Str) (l : Str), l ∈ jsSplitChar sep s → a ∈ l → a ∈ s
  | [], l => by
    intro hl ha
    simp [jsSplitChar] at hl
    subst hl
    exact absurd ha (List.not_mem_nil a)
  | c :: rest, l => by
    intro hl ha
    unfold jsSplitChar at hl
    by_cases hc : c = sep
    · rw [if_pos hc] at hl
      rcases List.mem_cons.mp hl with rfl | hl
      · exact absurd ha (List.not_mem_nil a)
      · exact List.mem_cons_of_mem c (mem_of_mem_splitChar sep a rest l hl ha)
    · rw [if_neg hc] at hl
      cases hx : jsSplitChar sep rest with
      | nil => exact absurd hx (jsSplitChar_ne_nil sep rest)
      | cons p ps =>
        rw [hx] at hl
        rcases List.mem_cons.mp hl with rfl | hl
        · rcases List.mem_cons.mp ha with rfl | ha
          · exact List.mem_cons_self a rest
          · exact List.mem_cons_of_mem c
              (mem_of_mem_splitChar sep a rest p (by rw [hx]; exact List.mem_cons_self p ps) ha)
        · exact List.mem_cons_of_mem c
            (mem_of_mem_splitChar sep a rest l (by rw [hx]; exact List.mem_cons_of_mem p hl) ha)

/-- The text/table line loop on lines that never look like a table rows
collects everything into one text part. -/
theorem go_all_text : ∀ (lines acc : List Str),
    (∀ l ∈ lines, looksLikeTable l = false) →
    parseTextAndTablesGo lines acc [] false =
      if (acc ++ lines).length ≠ 0 then
        [⟨PartType.text, joinChar '\n' (acc ++ lines)⟩] else []
  | [], acc => by
    intro _
    unfold parseTextAndTablesGo
    simp
  | line :: rest, acc => by
    intro h
    unfold parseTextAndTablesGo
    rw [if_neg (by simp [h line (by simp)])]
    rw [if_neg (by simp)]
    rw [go_all_text rest (acc ++ [line]) (fun l hl => h l (by simp [hl]))]
    simp

/-- `parseTextAndTables` on nonempty pipe-free content is one text part
holding the content itself. -/
theorem parseTextAndTables_plain (s : Str) (hpipe : '|' ∉ s) :
    parseTextAndTables s = [⟨PartType.text, s⟩] := by
  unfold parseTextAndTables
  have hlines : ∀ l ∈ jsSplitChar '\n' s, looksLikeTable l = false := by
    intro l hl
    unfold looksLikeTable
    have hmem : '|' ∉ l := fun hm => hpipe (mem_of_mem_splitChar '\n' '|' s l hl hm)
    have hc : l.contains '|' = false := by simpa using hmem
    rw [hc, Bool.false_and]
  rw [go_all_text (jsSplitChar '\n' s) [] hlines]
  rw [List.nil_append, joinChar_splitChar '\n' s]
  rw [if_pos]
  intro hlen
  exact (jsSplitChar_ne_nil '\n' s) (List.length_eq_zero.mp (by omega))

/-- The boolean prefix test agrees with `take`. -/
theorem isPrefixB_take : ∀ (a b : Str), isPrefixB a b = true ↔ b.take a.length = a
  | [], b => by simp [isPrefixB]
  | x :: xs, [] => by simp [isPrefixB]
  | x :: xs, y :: ys => by
    simp only [isPrefixB, List.length_cons, List.take_succ_cons, List.cons.injEq,
      Bool.and_eq_true, decide_eq_true_eq]
    rw [isPrefixB_take xs ys]
    constructor
    · rintro ⟨rfl, h⟩
      exact ⟨rfl, h⟩
    · rintro ⟨rfl, h⟩
      exact ⟨rfl, h⟩

/-- A failed containment test refutes the prefix test at every offset. -/
theorem not_includes_drop (pat : Str) : ∀ (s : Str), includesB s pat = false →
    ∀ n, isPrefixB pat (s.drop n) = false
  | [], h, n => by
    unfold includesB at h
    split at h
    · exact absurd h (by simp)
    · rename_i hnp
      rw [List.drop_nil]
      simpa using hnp
  | c :: t, h, n => by
    unfold includesB at h
    split at h
    · exact absurd h (by simp)
    · rename_i hnp
      have h2 : includesB t pat = false := h
      cases n with
      | zero =>
        rw [List.drop_zero]
        simpa using hnp
      | succ m => exact not_includes_drop pat t h2 m

/-- A pattern that fails at every suffix never produces a match. -/
theorem firstMatch_none {α : Type} (p : Pat α) :
    ∀ s : Str, (∀ n, p (s.drop n) = []) → firstMatch p s = none
  | [] => fun h => by
    unfold firstMatch
    rw [show p [] = [] from h 0]
    rfl
  | c :: rest => fun h => by
    unfold firstMatch
    rw [show p (c :: rest) = [] from h 0]
    rw [firstMatch_none p rest (fun n => h (n + 1))]
    rfl

/-- Without any match, the fallback collector returns no runs and the
whole input as remainder. -/
theorem collectMatches_none (p : Pat Str) (s : Str) (h : ∀ n, p (s.drop n) = []) :
    ∀ fuel, collectMatches p s fuel = ([], s)
  | 0 => rfl
  | fuel + 1 => by
    unfold collectMatches
    rw [firstMatch_none p s h]

/-- A segment without `SCHOLARSHIP:` (case-insensitively) kills the
scholarship pattern at every offset. -/
theorem scholPat_dead (s : Str)
    (h : includesB (lowerStr s) (lowerStr "SCHOLARSHIP:".toList) = false) :
    ∀ n, scholPat (s.drop n) = [] := by
  intro n
  have hpre := not_includes_drop (lowerStr "SCHOLARSHIP:".toList) (lowerStr s) h n
  have hlit : plitCI "SCHOLARSHIP:".toList (s.drop n) = [] := by
    unfold plitCI
    rw [if_neg]
    intro hcon
    have hp2 : isPrefixB (lowerStr "SCHOLARSHIP:".toList) ((lowerStr s).drop n) = true := by
      rw [isPrefixB_take]
      rw [show (lowerStr "SCHOLARSHIP:".toList).length = "SCHOLARSHIP:".toList.length
        from List.length_map _ _]
      simp only [lowerStr] at hcon ⊢
      rw [← List.map_drop Char.toLower s n, ← List.map_take Char.toLower (s.drop n)
        "SCHOLARSHIP:".toList.length]
      exact hcon
    rw [hpre] at hp2
    exact absurd hp2 (by simp)
  unfold scholPat pbind
  rw [hlit]
  rfl

/-- C10 counterexample: the input ` hi ` has no `---` line and no pipe,
yet segmentation returns a single prose block holding the TRIMMED text
`hi`, not the input itself — segmentation is not idempotent on plain text
with surrounding whitespace. -/
theorem plain_text_idempotence_counterexample :
    '|' ∉ " hi ".toList ∧
    splitDashLines " hi ".toList = [" hi ".toList] ∧
    parseContent " hi ".toList = [⟨PartType.text, "hi".toList⟩] ∧
    "hi".toList ≠ " hi ".toList := by
  refine ⟨by decide, by decide, ?_, by decide⟩
  decide

/-- C10 (amended): for a nonempty input with no `---` separator line, no
pipe character, no surrounding whitespace (trim-invariant), and not
matching the scholarship heuristic, segmentation yields exactly one prose
block whose content equals the input. -/
theorem plain_text_idempotence_amended (s : Str) (hne : s ≠ [])
    (hsplit : splitDashLines s = [s]) (hpipe : '|' ∉ s)
    (htrim : jsTrim s = s) (hsch : segmentIsScholarship s = false) :
    parseContent s = [⟨PartType.text, s⟩] := by
  have hincl : includesB (lowerStr s) (lowerStr "SCHOLARSHIP:".toList) = false := by
    unfold segmentIsScholarship includesCI at hsch
    cases hx : includesB (lowerStr s) (lowerStr "SCHOLARSHIP:".toList) with
    | false => rfl
    | true => rw [hx] at hsch; simp at hsch
  have hcm : collectMatches scholPat s (s.length + 1) = ([], s) :=
    collectMatches_none scholPat s (scholPat_dead s hincl) _
  have hptt : parseTextAndTables s = [⟨PartType.text, s⟩] :=
    parseTextAndTables_plain s hpipe
  unfold parseContent
  rw [hsplit]
  simp only [List.flatMap_cons, List.flatMap_nil, List.append_nil, htrim, hsch, hcm,
    List.length_cons, List.length_nil, hptt]
  simp [hne]

/-- Witness for the amended plain-text idempotence at `hello\nworld`. -/
theorem plain_text_idempotence_amended_witness :
    parseContent "hello\nworld".toList = [⟨PartType.text, "hello\nworld".toList⟩] :=
  plain_text_idempotence_amended "hello\nworld".toList (by decide) (by decide) (by decide)
    (by decide) (by decide)

/-- One pipe-table row: cells joined by ` | `. -/
def tableRow (cells : List Str) : Str := joinStr " | ".toList cells

/-- A well-formed pipe table: a header row, a dashed separator row, and
the data rows. -/
def mkTableText (hs : List Str) (rss : List (List Str)) : Str :=
  joinChar '\n' (tableRow hs :: "---|---".toList :: rss.map tableRow)

/-- A well-formed table cell: nonempty, trimmed, free of the structural
characters, not a dash run, and carrying at least one substantive
character. -/
def cellOk (c : Str) : Prop :=
  c ≠ [] ∧ jsTrim c = c ∧ '|' ∉ c ∧ '\n' ∉ c ∧ isAllDashes c = false ∧
    ∃ ch ∈ c, (jsIsSpace ch || ch = '|' || ch = ':' || ch = '-') = false

instance (c : Str) : Decidable (cellOk c) := by
  unfold cellOk
  infer_instance

/-- The head survives appending on the right. -/
theorem head_append_left (a b : Str) (h : a ≠ []) : (a ++ b).head? = a.head? := by
  cases a with
  | nil => exact absurd rfl h
  | cons c t => rfl

/-- The last element of an append with a nonempty right part. -/
theorem getLast?_append_of_ne_nil (a b : Str) (hb : b ≠ []) :
    (a ++ b).getLast? = b.getLast? := by
  rw [List.getLast?_append]
  cases hx : b.getLast? with
  | some y => rfl
  | none => exact absurd (List.getLast?_eq_none_iff.mp hx) hb

/-- `trim` never lengthens a string. -/
theorem jsTrim_length_le (s : Str) : (jsTrim s).length ≤ s.length := by
  unfold jsTrim
  rw [List.length_reverse]
  calc ((s.dropWhile jsIsSpace).reverse.dropWhile jsIsSpace).length
      ≤ (s.dropWhile jsIsSpace).reverse.length := dropWhile_length_le _ _
    _ = (s.dropWhile jsIsSpace).length := List.length_reverse _
    _ ≤ s.length := dropWhile_length_le _ _

/-- `trim` removes a leading space. -/
theorem jsTrim_cons_space (c : Char) (s : Str) (hc : jsIsSpace c = true) :
    jsTrim (c :: s) = jsTrim s := by
  unfold jsTrim
  rw [List.dropWhile_cons, if_pos hc]

/-- A trim-invariant string starts with no whitespace. -/
theorem trim_id_head (s : Str) (h : jsTrim s = s) :
    ∀ c, s.head? = some c → jsIsSpace c = false := by
  intro c hc
  cases s with
  | nil => simp at hc
  | cons x t =>
    simp only [List.head?_cons, Option.some.injEq] at hc
    subst hc
    by_contra hsp
    rw [Bool.not_eq_false] at hsp
    have h1 : jsTrim (x :: t) = jsTrim t := jsTrim_cons_space x t hsp
    have h2 : (jsTrim t).length ≤ t.length := jsTrim_length_le t
    rw [h] at h1
    have h3 := congrArg List.length h1
    simp at h3
    omega

/-- A trim-invariant nonempty string ends with no whitespace. -/
theorem trim_id_last (s : Str) (h : jsTrim s = s) (hne : s ≠ []) :
    ∀ c, s.getLast? = some c → jsIsSpace c = false := by
  intro c hc
  by_contra hsp
  rw [Bool.not_eq_false] at hsp
  by_cases hdn : s.dropWhile jsIsSpace = []
  · have h0 : jsTrim s = [] := by
      unfold jsTrim
      rw [hdn]
      rfl
    rw [h] at h0
    exact hne h0
  · obtain ⟨t, ht⟩ := List.dropWhile_suffix (p := jsIsSpace) (l := s)
    have hlast : (s.dropWhile jsIsSpace).getLast? = some c := by
      rw [← ht] at hc
      rw [getLast?_append_of_ne_nil t _ hdn] at hc
      exact hc
    have hrev : (s.dropWhile jsIsSpace).reverse.head? = some c := by
      rw [List.head?_reverse]
      exact hlast
    cases hrv : (s.dropWhile jsIsSpace).reverse with
    | nil => rw [hrv] at hrev; simp at hrev
    | cons x xs =>
      rw [hrv] at hrev
      simp only [List.head?_cons, Option.some.injEq] at hrev
      subst hrev
      have hlen : (jsTrim s).length ≤ xs.length := by
        unfold jsTrim
        rw [hrv, List.length_reverse, List.dropWhile_cons, if_pos hsp]
        exact dropWhile_length_le _ _
      have hslen : s.length = (jsTrim s).length := by rw [h]
      have hd1 : (s.dropWhile jsIsSpace).length ≤ s.length := dropWhile_length_le _ _
      have hd2 : (s.dropWhile jsIsSpace).reverse.length = (s.dropWhile jsIsSpace).length :=
        List.length_reverse _
      rw [hrv] at hd2
      simp at hd2
      omega

/-- A string with no whitespace at either end is trim-invariant. -/
theorem jsTrim_id_of_ends (s : Str)
    (h1 : ∀ c, s.head? = some c → jsIsSpace c = false)
    (h2 : ∀ c, s.getLast? = some c → jsIsSpace c = false) : jsTrim s = s := by
  unfold jsTrim
  have hd : s.dropWhile jsIsSpace = s := by
    cases s with
    | nil => rfl
    | cons c t => rw [List.dropWhile_cons, if_neg (by simp [h1 c rfl])]
  rw [hd]
  have hd2 : s.reverse.dropWhile jsIsSpace = s.reverse := by
    cases hs : s.reverse with
    | nil => rfl
    | cons c t =>
      rw [List.dropWhile_cons, if_neg]
      have hlc : s.getLast? = some c := by rw [← List.head?_reverse, hs]; rfl
      simp [h2 c hlc]
  rw [hd2, List.reverse_reverse]

/-- Trimming a trim-invariant cell padded by one trailing space recovers
the cell. -/
theorem jsTrim_cell_pad_right (c : Str) (hc : jsTrim c = c) (hne : c ≠ []) :
    jsTrim (c ++ [' ']) = c := by
  unfold jsTrim
  have hd : (c ++ [' ']).dropWhile jsIsSpace = c ++ [' '] := by
    cases hcc : c with
    | nil => exact absurd hcc hne
    | cons x t =>
      rw [List.cons_append, List.dropWhile_cons, if_neg]
      have hx : jsIsSpace x = false := trim_id_head c hc x (by rw [hcc]; rfl)
      simp [hx]
  rw [hd, List.reverse_append]
  show ((' ' :: c.reverse).dropWhile jsIsSpace).reverse = c
  rw [List.dropWhile_cons, if_pos (by decide)]
  have hcr : c.reverse.dropWhile jsIsSpace = c.reverse := by
    cases hs : c.reverse with
    | nil => rfl
    | cons x t =>
      rw [List.dropWhile_cons, if_neg]
      have hlc : c.getLast? = some x := by rw [← List.head?_reverse, hs]; rfl
      simp [trim_id_last c hc hne x hlc]
  rw [hcr, List.reverse_reverse]

/-- `split` on a separator-free string is the identity piece. -/
theorem jsSplitChar_no_sep (sep : Char) : ∀ s : Str, sep ∉ s → jsSplitChar sep s = [s]
  | [] => fun _ => rfl
  | c :: rest => fun h => by
    unfold jsSplitChar
    rw [if_neg (fun hc => h (by rw [← hc]; exact List.mem_cons_self c rest))]
    rw [jsSplitChar_no_sep sep rest (fun hm => h (List.mem_cons_of_mem c hm))]

/-- `split` peels a separator-free prefix at its separator. -/
theorem jsSplitChar_append_sep (sep : Char) : ∀ (s t : Str), sep ∉ s →
    jsSplitChar sep (s ++ sep :: t) = s :: jsSplitChar sep t
  | [], t => fun _ => by
    rw [List.nil_append]
    conv_lhs => unfold jsSplitChar
    rw [if_pos rfl]
  | c :: s2, t => fun h => by
    rw [List.cons_append]
    conv_lhs => unfold jsSplitChar
    rw [if_neg (fun hc => h (by rw [← hc]; exact List.mem_cons_self c s2))]
    rw [jsSplitChar_append_sep sep s2 t (fun hm => h (List.mem_cons_of_mem c hm))]

/-- `split` is a left inverse of `join` on separator-free pieces. -/
theorem splitChar_join (sep : Char) : ∀ lines : List Str, lines ≠ [] →
    (∀ l ∈ lines, sep ∉ l) → jsSplitChar sep (joinChar sep lines) = lines
  | [], h, _ => absurd rfl h
  | [l], _, hl => by
    show jsSplitChar sep l = [l]
    exact jsSplitChar_no_sep sep l (hl l (by simp))
  | l :: m :: ms, _, hl => by
    show jsSplitChar sep (l ++ sep :: joinChar sep (m :: ms)) = l :: m :: ms
    rw [jsSplitChar_append_sep sep l _ (hl l (by simp))]
    rw [splitChar_join sep (m :: ms) (by simp) (fun x hx => hl x (by simp [hx]))]

/-- A character of the first cell occurs in the joined row. -/
theorem mem_joinStr_of_head (sep : Str) (a : Char) :
    ∀ (c : Str) (cs : List Str), a ∈ c → a ∈ joinStr sep (c :: cs)
  | c, [] => fun h => h
  | c, m :: ms => fun h => by
    show a ∈ c ++ sep ++ joinStr sep (m :: ms)
    exact List.mem_append.mpr (Or.inl (List.mem_append.mpr (Or.inl h)))

/-- Characters of the joined row come from the separator or a cell. -/
theorem mem_joinStr (sep : Str) (a : Char) :
    ∀ cells : List Str, a ∈ joinStr sep cells → a ∈ sep ∨ ∃ c ∈ cells, a ∈ c
  | [] => fun h => absurd h (List.not_mem_nil a)
  | [c] => fun h => Or.inr ⟨c, by simp, h⟩
  | c :: m :: ms => fun h => by
    have h2 : a ∈ c ++ sep ++ joinStr sep (m :: ms) := h
    rcases List.mem_append.mp h2 with h3 | h3
    · rcases List.mem_append.mp h3 with h4 | h4
      · exact Or.inr ⟨c, by simp, h4⟩
      · exact Or.inl h4
    · rcases mem_joinStr sep a (m :: ms) h3 with h4 | ⟨x, hx, ha⟩
      · exact Or.inl h4
      · exact Or.inr ⟨x, by simp [hx], ha⟩

/-- A line holding one substantive character is no separator row. -/
theorem isSeparatorRow_false_of (line : Str) (ch : Char) (hm : ch ∈ line)
    (hsub : (jsIsSpace ch || ch = '|' || ch = ':' || ch = '-') = false) :
    isSeparatorRow line = false := by
  unfold isSeparatorRow
  have hall : line.all (fun c => jsIsSpace c || c = '|' || c = ':' || c = '-') = false := by
    cases hx : line.all (fun c => jsIsSpace c || c = '|' || c = ':' || c = '-') with
    | false => rfl
    | true =>
      have h1 := List.all_eq_true.mp hx ch hm
      have h2 : (jsIsSpace ch || ch = '|' || ch = ':' || ch = '-') = true := h1
      rw [hsub] at h2
      exact absurd h2 (by simp)
  rw [hall, Bool.and_false]

/-- A row of nonempty cells is nonempty. -/
theorem tableRow_ne_nil : ∀ cells : List Str, cells ≠ [] → (∀ c ∈ cells, c ≠ []) →
    tableRow cells ≠ []
  | [], h, _ => absurd rfl h
  | [c], _, hc => by
    show c ≠ []
    exact hc c (by simp)
  | c :: m :: ms, _, hc => by
    show c ++ " | ".toList ++ joinStr " | ".toList (m :: ms) ≠ []
    intro hnil
    rcases List.append_eq_nil.mp hnil with ⟨h1, _⟩
    rcases List.append_eq_nil.mp h1 with ⟨_, h2⟩
    exact absurd h2 (by decide)

/-- Splitting a joined row on pipes and trimming recovers the cells. -/
theorem split_pipe_join : ∀ cells : List Str, cells ≠ [] →
    (∀ c ∈ cells, '|' ∉ c) → (∀ c ∈ cells, jsTrim c = c) → (∀ c ∈ cells, c ≠ []) →
    (jsSplitChar '|' (tableRow cells)).map jsTrim = cells
  | [], h, _, _, _ => absurd rfl h
  | [c], _, hf, ht, _ => by
    show (jsSplitChar '|' c).map jsTrim = [c]
    rw [jsSplitChar_no_sep '|' c (hf c (by simp))]
    simp [ht c (by simp)]
  | c :: m :: ms, _, hf, ht, hn => by
    show (jsSplitChar '|' (c ++ " | ".toList ++ joinStr " | ".toList (m :: ms))).map jsTrim
      = c :: m :: ms
    have hshape : c ++ " | ".toList ++ joinStr " | ".toList (m :: ms) =
        (c ++ [' ']) ++ '|' :: (' ' :: joinStr " | ".toList (m :: ms)) := by
      rw [show " | ".toList = [' ', '|', ' '] from rfl]
      simp
    have hpf : '|' ∉ c ++ [' '] := by
      intro hm
      rcases List.mem_append.mp hm with h1 | h1
      · exact hf c (by simp) h1
      · simp at h1
    rw [hshape, jsSplitChar_append_sep '|' (c ++ [' ']) _ hpf]
    have hJ := split_pipe_join (m :: ms) (by simp)
      (fun x hx => hf x (by simp [hx])) (fun x hx => ht x (by simp [hx]))
      (fun x hx => hn x (by simp [hx]))
    cases hsp : jsSplitChar '|' (tableRow (m :: ms)) with
    | nil => exact absurd hsp (jsSplitChar_ne_nil '|' _)
    | cons p ps =>
      have hsplit2 : jsSplitChar '|' (' ' :: joinStr " | ".toList (m :: ms)) =
          (' ' :: p) :: ps := by
        conv_lhs => unfold jsSplitChar
        rw [if_neg (by decide)]
        rw [show joinStr " | ".toList (m :: ms) = tableRow (m :: ms) from rfl, hsp]
      rw [hsplit2]
      rw [hsp] at hJ
      simp only [List.map_cons] at hJ ⊢
      rw [jsTrim_cell_pad_right c (ht c (by simp)) (hn c (by simp))]
      rw [jsTrim_cons_space ' ' p (by decide)]
      rw [hJ]

/-- The separator row decodes to no data row. -/
theorem parseTableRow_sep : parseTableRow "---|---".toList = none := by decide

/-- A joined row of well-formed cells decodes back to exactly its cells. -/
theorem parseTableRow_data (r : List Str) (hne : r ≠ []) (hok : ∀ c ∈ r, cellOk c) :
    parseTableRow (tableRow r) = some r := by
  obtain ⟨c0, r2, rfl⟩ : ∃ c0 r2, r = c0 :: r2 := by
    cases r with
    | nil => exact absurd rfl hne
    | cons a b => exact ⟨a, b, rfl⟩
  obtain ⟨ch, hchm, hchs⟩ := (hok c0 (by simp)).2.2.2.2.2
  have hsep : isSeparatorRow (tableRow (c0 :: r2)) = false :=
    isSeparatorRow_false_of _ ch (mem_joinStr_of_head " | ".toList ch c0 r2 hchm) hchs
  have hsplit : (jsSplitChar '|' (tableRow (c0 :: r2))).map jsTrim = c0 :: r2 :=
    split_pipe_join (c0 :: r2) (by simp)
      (fun x hx => (hok x hx).2.2.1) (fun x hx => (hok x hx).2.1)
      (fun x hx => (hok x hx).1)
  have hfilter : (c0 :: r2).filter (fun c => !(isAllDashes c)) = c0 :: r2 :=
    List.filter_eq_self.mpr (fun x hx => by simp [(hok x hx).2.2.2.2.1])
  have hc0 : c0 ≠ [] := (hok c0 (by simp)).1
  unfold parseTableRow
  rw [hsep]
  rw [if_neg (by simp)]
  rw [hsplit]
  simp [hc0, hfilter]

/-- The data-row loop over joined well-formed rows recovers the rows. -/
theorem filterMap_data_rows : ∀ rss : List (List Str), (∀ r ∈ rss, r ≠ []) →
    (∀ r ∈ rss, ∀ c ∈ r, cellOk c) →
    (rss.map tableRow).filterMap parseTableRow = rss
  | [] => fun _ _ => rfl
  | r :: rs => fun hne hok => by
    rw [List.map_cons, List.filterMap_cons]
    rw [parseTableRow_data r (hne r (by simp)) (hok r (by simp))]
    rw [filterMap_data_rows rs (fun x hx => hne x (by simp [hx]))
      (fun x hx => hok x (by simp [hx]))]

/-- The last character of a joined line list is the last character of its
last (nonempty) element. -/
theorem getLast?_joinChar (sep : Char) : ∀ (lines : List Str) (x : Str),
    lines.getLast? = some x → x ≠ [] → (joinChar sep lines).getLast? = x.getLast?
  | [], x => by simp
  | [l], x => fun h hx => by
    simp only [List.getLast?_singleton, Option.some.injEq] at h
    subst h
    rfl
  | l :: m :: ms, x => fun h hx => by
    have h2 : (m :: ms).getLast? = some x := by
      rw [List.getLast?_cons_cons] at h
      exact h
    have hj := getLast?_joinChar sep (m :: ms) x h2 hx
    have hxs : x.getLast?.isSome := List.getLast?_isSome.mpr hx
    have hjne : joinChar sep (m :: ms) ≠ [] := by
      intro hnil
      rw [hnil] at hj
      rw [← hj] at hxs
      simp at hxs
    show (l ++ sep :: joinChar sep (m :: ms)).getLast? = x.getLast?
    rw [getLast?_append_of_ne_nil l _ (by simp)]
    rw [show (sep :: joinChar sep (m :: ms)) = [sep] ++ joinChar sep (m :: ms) from rfl]
    rw [getLast?_append_of_ne_nil [sep] _ hjne]
    exact hj

/-- The last character of a joined row is the last character of its last
(nonempty) cell. -/
theorem getLast?_joinStr (sep : Str) : ∀ (cells : List Str) (x : Str),
    cells.getLast? = some x → x ≠ [] → (joinStr sep cells).getLast? = x.getLast?
  | [], x => by simp
  | [l], x => fun h hx => by
    simp only [List.getLast?_singleton, Option.some.injEq] at h
    subst h
    rfl
  | l :: m :: ms, x => fun h hx => by
    have h2 : (m :: ms).getLast? = some x := by
      rw [List.getLast?_cons_cons] at h
      exact h
    have hj := getLast?_joinStr sep (m :: ms) x h2 hx
    have hxs : x.getLast?.isSome := List.getLast?_isSome.mpr hx
    have hjne : joinStr sep (m :: ms) ≠ [] := by
      intro hnil
      rw [hnil] at hj
      rw [← hj] at hxs
      simp at hxs
    show (l ++ sep ++ joinStr sep (m :: ms)).getLast? = x.getLast?
    rw [getLast?_append_of_ne_nil _ _ hjne]
    exact hj

/-- The first character of a joined row is the first character of its
first (nonempty) cell. -/
theorem head?_tableRow (c : Str) (cs : List Str) (hc : c ≠ []) :
    (tableRow (c :: cs)).head? = c.head? := by
  cases cs with
  | nil => rfl
  | cons m ms =>
    show (c ++ " | ".toList ++ joinStr " | ".toList (m :: ms)).head? = c.head?
    rw [head_append_left _ _ (by intro hnil; exact hc (List.append_eq_nil.mp hnil).1)]
    rw [head_append_left c _ hc]

/-- A row of two or more cells contains a pipe. -/
theorem tableRow_has_pipe (c : Str) (m : Str) (ms : List Str) :
    '|' ∈ tableRow (c :: m :: ms) := by
  show '|' ∈ c ++ " | ".toList ++ joinStr " | ".toList (m :: ms)
  exact List.mem_append.mpr (Or.inl (List.mem_append.mpr (Or.inr (by decide))))

/-- Rows of newline-free cells are newline-free. -/
theorem tableRow_no_nl (cells : List Str) (h : ∀ c ∈ cells, '\n' ∉ c) :
    '\n' ∉ tableRow cells := by
  intro hm
  rcases mem_joinStr " | ".toList '\n' cells hm with h1 | ⟨x, hx, ha⟩
  · simp at h1
  · exact h x hx ha

/-- A well-formed table text is trim-invariant: it starts with the first
header cell and ends with the last data cell, both trimmed. -/
theorem mkTableText_trim_id (h0 h1 : Str) (hs2 : List Str) (rss : List (List Str))
    (hrne : rss ≠ []) (hokH : ∀ c ∈ h0 :: h1 :: hs2, cellOk c)
    (hokR : ∀ r ∈ rss, ∀ c ∈ r, cellOk c) (hrne2 : ∀ r ∈ rss, r ≠ []) :
    jsTrim (mkTableText (h0 :: h1 :: hs2) rss) = mkTableText (h0 :: h1 :: hs2) rss := by
  obtain ⟨r0, rs, rfl⟩ : ∃ r0 rs, rss = r0 :: rs := by
    cases rss with
    | nil => exact absurd rfl hrne
    | cons a b => exact ⟨a, b, rfl⟩
  obtain ⟨rl, hrl⟩ : ∃ rl, (r0 :: rs).getLast? = some rl := by
    cases hx : (r0 :: rs).getLast? with
    | none => exact absurd (List.getLast?_eq_none_iff.mp hx) (by simp)
    | some a => exact ⟨a, rfl⟩
  have hrlmem : rl ∈ r0 :: rs := List.mem_of_mem_getLast? hrl
  have hrlne : rl ≠ [] := hrne2 rl hrlmem
  obtain ⟨cl, hcl⟩ : ∃ cl, rl.getLast? = some cl := by
    cases hx : rl.getLast? with
    | none => exact absurd (List.getLast?_eq_none_iff.mp hx) hrlne
    | some a => exact ⟨a, rfl⟩
  have hclmem : cl ∈ rl := List.mem_of_mem_getLast? hcl
  have hclok : cellOk cl := hokR rl hrlmem cl hclmem
  have hh0 : cellOk h0 := hokH h0 (by simp)
  have hhead : (mkTableText (h0 :: h1 :: hs2) (r0 :: rs)).head? = h0.head? := by
    show (tableRow (h0 :: h1 :: hs2) ++
      '\n' :: joinChar '\n' ("---|---".toList :: (r0 :: rs).map tableRow)).head? = h0.head?
    rw [head_append_left _ _
      (tableRow_ne_nil _ (by simp) (fun c hc => (hokH c hc).1))]
    exact head?_tableRow h0 (h1 :: hs2) hh0.1
  have hlastL : (tableRow (h0 :: h1 :: hs2) :: "---|---".toList ::
      (r0 :: rs).map tableRow).getLast? = some (tableRow rl) := by
    rw [List.getLast?_cons_cons, List.map_cons, List.getLast?_cons_cons, ← List.map_cons,
      List.getLast?_map, hrl]
    rfl
  have hlast : (mkTableText (h0 :: h1 :: hs2) (r0 :: rs)).getLast? = cl.getLast? := by
    unfold mkTableText
    rw [getLast?_joinChar '\n' _ (tableRow rl) hlastL
      (tableRow_ne_nil rl hrlne (fun c hc => (hokR rl hrlmem c hc).1))]
    exact getLast?_joinStr " | ".toList rl cl hcl hclok.1
  apply jsTrim_id_of_ends
  · intro c hc
    rw [hhead] at hc
    exact trim_id_head h0 hh0.2.1 c hc
  · intro c hc
    rw [hlast] at hc
    exact trim_id_last cl hclok.2.1 hclok.1 c hc

/-- Decoding a well-formed constructed table recovers headers and rows. -/
theorem parseTable_mkTable (h0 h1 : Str) (hs2 : List Str) (rss : List (List Str))
    (hrne : rss ≠ []) (hokH : ∀ c ∈ h0 :: h1 :: hs2, cellOk c)
    (hokR : ∀ r ∈ rss, ∀ c ∈ r, cellOk c)
    (hwidth : ∀ r ∈ rss, r.length = (h0 :: h1 :: hs2).length) :
    parseTable (mkTableText (h0 :: h1 :: hs2) rss) = some ⟨h0 :: h1 :: hs2, rss⟩ := by
  have hrne2 : ∀ r ∈ rss, r ≠ [] := by
    intro r hr hnil
    have hw := hwidth r hr
    rw [hnil] at hw
    simp at hw
  have hnlL : ∀ l ∈ (tableRow (h0 :: h1 :: hs2) :: "---|---".toList :: rss.map tableRow),
      '\n' ∉ l := by
    intro l hl
    rcases List.mem_cons.mp hl with rfl | hl
    · exact tableRow_no_nl _ (fun c hc => (hokH c hc).2.2.2.1)
    · rcases List.mem_cons.mp hl with rfl | hl
      · decide
      · obtain ⟨r, hr, rfl⟩ := List.mem_map.mp hl
        exact tableRow_no_nl _ (fun c hc => (hokR r hr c hc).2.2.2.1)
  have hsplitL : jsSplitChar '\n' (mkTableText (h0 :: h1 :: hs2) rss) =
      tableRow (h0 :: h1 :: hs2) :: "---|---".toList :: rss.map tableRow := by
    unfold mkTableText
    exact splitChar_join '\n' _ (by simp) hnlL
  have htr := mkTableText_trim_id h0 h1 hs2 rss hrne hokH hokR hrne2
  have hallpipe : ∀ l ∈ (tableRow (h0 :: h1 :: hs2) :: "---|---".toList :: rss.map tableRow),
      l.contains '|' = true := by
    intro l hl
    rcases List.mem_cons.mp hl with rfl | hl
    · simpa using tableRow_has_pipe h0 h1 hs2
    · rcases List.mem_cons.mp hl with rfl | hl
      · decide
      · obtain ⟨r, hr, rfl⟩ := List.mem_map.mp hl
        obtain ⟨a, b, r2, rfl⟩ : ∃ a b r2, r = a :: b :: r2 := by
          have hw := hwidth r hr
          cases r with
          | nil => simp at hw
          | cons a rr =>
            cases rr with
            | nil => simp at hw
            | cons b r2 => exact ⟨a, b, r2, rfl⟩
        simpa using tableRow_has_pipe a b r2
  have hsplithead : (jsSplitChar '|' (tableRow (h0 :: h1 :: hs2))).map jsTrim =
      h0 :: h1 :: hs2 :=
    split_pipe_join _ (by simp) (fun c hc => (hokH c hc).2.2.1)
      (fun c hc => (hokH c hc).2.1) (fun c hc => (hokH c hc).1)
  have hfilthead : (h0 :: h1 :: hs2).filter (fun c => c.length ≠ 0 && !(isAllDashes c)) =
      h0 :: h1 :: hs2 := by
    apply List.filter_eq_self.mpr
    intro c hc
    have h1c := (hokH c hc).1
    have h2c := (hokH c hc).2.2.2.2.1
    simp [h2c, List.length_eq_zero, h1c]
  have hrows : ("---|---".toList :: rss.map tableRow).filterMap parseTableRow = rss := by
    rw [List.filterMap_cons, parseTableRow_sep]
    exact filterMap_data_rows rss hrne2 hokR
  simp only [parseTable]
  rw [htr, hsplitL]
  rw [if_neg (by simp only [List.length_cons]; omega)]
  rw [List.filter_eq_self.mpr hallpipe]
  rw [if_neg (by simp only [List.length_cons]; omega)]
  rw [show (tableRow (h0 :: h1 :: hs2) :: "---|---".toList :: rss.map tableRow).headD [] =
    tableRow (h0 :: h1 :: hs2) from rfl]
  rw [hsplithead, hfilthead]
  rw [if_neg (by simp)]
  rw [show (tableRow (h0 :: h1 :: hs2) :: "---|---".toList :: rss.map tableRow).drop 1 =
    "---|---".toList :: rss.map tableRow from rfl]
  rw [hrows]
  rw [if_pos (fun h => hrne (List.length_eq_zero.mp h))]

/-- C6 counterexample: a pipe table whose data rows have 3 and 2 cells
against 2 headers still decodes to a table block — column-count mismatch
does NOT degrade to a text block — while a table with zero data rows
degrades to a preformatted block. -/
theorem table_roundtrip_counterexample :
    parseTable "A | B\n---|---\n1 | 2 | 3\n4 | 5".toList =
      some ⟨["A".toList, "B".toList],
            [["1".toList, "2".toList, "3".toList], ["4".toList, "5".toList]]⟩ ∧
    renderPart ⟨PartType.table, "A | B\n---|---\n1 | 2 | 3\n4 | 5".toList⟩ =
      RenderedBlock.tableBlock ["A".toList, "B".toList]
        [["1".toList, "2".toList, "3".toList], ["4".toList, "5".toList]] ∧
    (["A".toList, "B".toList].length = 2 ∧
      (["1".toList, "2".toList, "3".toList] : List Str).length = 3) ∧
    parseTable "A | B\n---|---".toList = none ∧
    renderPart ⟨PartType.table, "A | B\n---|---".toList⟩ =
      RenderedBlock.preBlock "A | B\n---|---".toList := by
  exact ⟨by decide, by decide, by decide, by decide, by decide⟩

/-- C6 (amended): for every well-formed pipe table — two or more header
cells, a dashed separator row, and a nonempty list of data rows whose
widths all equal the header count, with cells free of structural
characters — the renderer produces a table block holding exactly those
headers and rows, so the header count equals each row's column count;
and whenever table decoding fails (for example zero data rows), the
renderer degrades to a preformatted text block and never throws.  Column
COUNT MISMATCH, however, does not degrade: the mismatched rows are kept
as decoded. -/
theorem table_roundtrip_amended (h0 h1 : Str) (hs2 : List Str) (rss : List (List Str))
    (hrne : rss ≠ []) (hokH : ∀ c ∈ h0 :: h1 :: hs2, cellOk c)
    (hokR : ∀ r ∈ rss, ∀ c ∈ r, cellOk c)
    (hwidth : ∀ r ∈ rss, r.length = (h0 :: h1 :: hs2).length) :
    parseTable (mkTableText (h0 :: h1 :: hs2) rss) = some ⟨h0 :: h1 :: hs2, rss⟩ ∧
    renderPart ⟨PartType.table, mkTableText (h0 :: h1 :: hs2) rss⟩ =
      RenderedBlock.tableBlock (h0 :: h1 :: hs2) rss ∧
    (∀ r ∈ rss, r.length = (h0 :: h1 :: hs2).length) ∧
    (∀ t : Str, parseTable t = none →
      renderPart ⟨PartType.table, t⟩ = RenderedBlock.preBlock t) := by
  have hmain := parseTable_mkTable h0 h1 hs2 rss hrne hokH hokR hwidth
  refine ⟨hmain, ?_, hwidth, ?_⟩
  · unfold renderPart
    rw [hmain]
  · intro t ht
    unfold renderPart
    rw [ht]

/-- Witness for the amended table round trip at a concrete 2x2 table. -/
theorem table_roundtrip_amended_witness :
    parseTable (mkTableText ["A".toList, "B".toList]
        [["1".toList, "2".toList], ["3".toList, "4".toList]]) =
      some ⟨["A".toList, "B".toList], [["1".toList, "2".toList], ["3".toList, "4".toList]]⟩ ∧
    renderPart ⟨PartType.table, mkTableText ["A".toList, "B".toList]
        [["1".toList, "2".toList], ["3".toList, "4".toList]]⟩ =
      RenderedBlock.tableBlock ["A".toList, "B".toList]
        [["1".toList, "2".toList], ["3".toList, "4".toList]] ∧
    (∀ r ∈ [["1".toList, "2".toList], ["3".toList, "4".toList]],
      r.length = ["A".toList, "B".toList].length) ∧
    (∀ t : Str, parseTable t = none →
      renderPart ⟨PartType.table, t⟩ = RenderedBlock.preBlock t) :=
  table_roundtrip_amended "A".toList "B".toList [] [["1".toList, "2".toList],
    ["3".toList, "4".toList]] (by decide) (by decide) (by decide) (by decide)

end Unipreply
